import Mathlib

/-!
# Verification of the Sequelize-JSONAPI document engine

Shallow embedding of the JSON:API document-transformation engine
(`index.js`, the module registering Create / GetSingle / GetList / Update /
Delete / GetRelationship / UpdateRelationship / GetRelated routes) together
with proofs about the claims of its specification.

Modelling conventions:
* JavaScript objects whose keys matter only by name become association lists
  `List (String × _)` in key-insertion order (`Object.keys` iteration order).
* Row values are `Val`; Sequelize instances are `Inst` (model name plus
  `dataValues`, where loaded associations appear under their alias, as in
  Sequelize).  Numeric ids are embedded as `Int`; URL / body ids arrive as
  integers (Sequelize's string-to-number coercion is an external concern).
* The persistence engine (Sequelize) is external to the engine under
  verification; `findRowByPk`, `findAllRows`, `dbUpdateWhere`, `dbCreate`,
  `loadRow` model its documented behaviour at the boundary used here.
* The recursive resource-object builder is embedded with explicit fuel;
  every handler loads association graphs exactly one level deep, for which
  fuel 2 reproduces the JavaScript recursion exactly (the depth-2 calls make
  no further recursive calls because nested instances carry no loaded
  aliases).
-/

namespace JsonApi

/-- The three Sequelize association kinds dispatched on by the engine
(`associationType === "HasMany" | "HasOne" | "BelongsTo"`). -/
inductive AssocType where
  | HasMany
  | HasOne
  | BelongsTo
  deriving DecidableEq, Repr

/-- One association descriptor as the engine reads it off
`model.associations`: its kind, the target model (by name; the JavaScript
holds the live model object), the alias `as`, and the foreign key. -/
structure Association where
  associationType : AssocType
  target : String
  as : String
  foreignKey : String
  deriving DecidableEq, Repr

/-- Column type as far as the engine inspects it (`rawAttributes[f].type.key`
compared against `'DATE'` / `'DATEONLY'`). -/
inductive AttrType where
  | DATE
  | DATEONLY
  | OTHER
  deriving DecidableEq, Repr

mutual
/-- A JavaScript value as it occurs in `instance.dataValues`: scalars, or a
loaded associated instance (`hasOne`/`belongsTo` alias) or list of instances
(`hasMany` alias). -/
inductive Val : Type where
  | vnull : Val
  | vint : Int → Val
  | vstr : String → Val
  | vbool : Bool → Val
  | vinst : Inst → Val
  | vlist : List Inst → Val

/-- A Sequelize instance: constructor (model) name plus `dataValues`. -/
inductive Inst : Type where
  | mk : String → List (String × Val) → Inst
end

/-- Model name of an instance (`instance.constructor.name`). -/
def Inst.modelName : Inst → String
  | .mk n _ => n

/-- `dataValues` of an instance (`instance.get()`). -/
def Inst.fields : Inst → List (String × Val)
  | .mk _ f => f

/-- A database row holds only the column values (no loaded associations). -/
abbrev Row := List (String × Val)

/-- Property access `obj[key]`: `none` models JavaScript `undefined`. -/
def lookupF (fields : List (String × Val)) (key : String) : Option Val :=
  (fields.find? (fun p => p.1 = key)).map Prod.snd

/-- Property assignment `obj[key] = v` on a string-keyed object: replaces
the entry with that key in place, otherwise appends (keys are unique). -/
def setField : List (String × Val) → String → Val → List (String × Val)
  | [], key, v => [(key, v)]
  | p :: ps, key, v =>
    if p.1 = key then (key, v) :: ps else p :: setField ps key v

/-- Strict equality of scalar values (`===` on primitives); loaded instances
never compare equal to scalars. -/
def scalarValEq : Val → Val → Bool
  | .vnull, .vnull => true
  | .vint m, .vint n => m = n
  | .vstr s, .vstr t => s = t
  | .vbool a, .vbool b => a = b
  | _, _ => false

/-- JavaScript truthiness of a value, used by the engine at
`if (foreignKeyValue)` and similar guards. -/
def jsTruthyVal : Val → Bool
  | .vnull => false
  | .vint n => n ≠ 0
  | .vstr s => s ≠ ""
  | .vbool b => b
  | .vinst _ => true
  | .vlist _ => true

/-- Truthiness of an optional query-string value (`req.query.simple || false`):
absent and `""` are falsy, every other string is truthy. -/
def jsTruthyStr : Option String → Bool
  | none => false
  | some s => s ≠ ""

/-- `String(x)` on a (possibly `undefined`) value. -/
def jsStringOfVal : Option Val → String
  | none => "undefined"
  | some .vnull => "null"
  | some (.vint n) => toString n
  | some (.vstr s) => s
  | some (.vbool b) => if b then "true" else "false"
  | some (.vinst _) => "[object Object]"
  | some (.vlist _) => "[object Object]"

/-- A declared-field validator supplied by the external persistence engine:
given the attributes of a create/update call it returns the list of
`(err.path, err.message)` pairs of a `SequelizeValidationError` (empty list:
the write succeeds). -/
abbrev Validator := List (String × Val) → List (String × String)

/-- The model descriptor the engine consumes: name, declared primary key
(`model.primaryKeyAttribute`), associations in declaration order, column
types (`model.rawAttributes`), and the external validator. -/
structure Model where
  name : String
  primaryKeyAttribute : String
  associations : List Association
  rawAttributes : List (String × AttrType)
  validate : Validator

/-- The model registry: the JavaScript holds live model references inside
association descriptors; the embedding resolves `association.target` here. -/
abbrev Registry := List Model

/-- Fallback model used when a target name is absent from the registry
(unreachable for well-formed registries; the JavaScript would hold a live
reference). -/
def defaultModel (n : String) : Model :=
  { name := n, primaryKeyAttribute := "id", associations := [],
    rawAttributes := [], validate := fun _ => [] }

/-- Resolve a model by name. -/
def lookupModel (reg : Registry) (n : String) : Model :=
  (reg.find? (fun m => m.name = n)).getD (defaultModel n)

/-- The database visible to the external persistence engine: model name to
list of rows, in insertion order. -/
structure DB where
  tables : List (String × List Row)

/-- All rows of a model (`findAll` with no restriction). -/
def findAllRows (db : DB) (modelName : String) : List Row :=
  ((db.tables.find? (fun p => p.1 = modelName)).map Prod.snd).getD []

/-- `model.findByPk(id)` for an integer id. -/
def findRowByPk (db : DB) (m : Model) (pid : Int) : Option Row :=
  (findAllRows db m.name).find?
    (fun r => match lookupF r m.primaryKeyAttribute with
      | some v => scalarValEq v (.vint pid)
      | none => false)

/-! ## Document data model (the JSON:API envelope the engine emits) -/

/-- A resource identifier `{ type, id }` (`buildResourceIdentifierObject`). -/
structure ResourceIdentifier where
  id : String
  type : String
  deriving DecidableEq, Repr

/-- The `data` member of a relationship object. -/
inductive RelData where
  | nullR : RelData
  | one : ResourceIdentifier → RelData
  | many : List ResourceIdentifier → RelData
  deriving DecidableEq, Repr

/-- A `links` object; top-level links carry only `self`, relationship links
also carry `related`. -/
structure Links where
  self : String
  related : Option String := none
  deriving DecidableEq, Repr

/-- A relationship object: linkage plus optional links. -/
structure RelationshipObject where
  data : RelData
  links : Option Links := none
  deriving DecidableEq, Repr

/-- A resource object: string id, type, attributes, and (in non-simple mode)
a relationships map in association order. -/
structure ResourceObject where
  id : String
  type : String
  attributes : List (String × Val)
  relationships : Option (List (String × RelationshipObject)) := none

/-- `source` member of an error object. -/
inductive ErrSource where
  | pointer : String → ErrSource
  | header : String → ErrSource
  deriving DecidableEq, Repr

/-- An error object (`formatJsonApiError`). -/
structure ErrorObj where
  status : String
  title : String
  detail : Option String := none
  source : Option ErrSource := none
  deriving DecidableEq, Repr

/-- Primary `data` of a document: null, resource object(s) or identifier(s). -/
inductive PrimaryData where
  | nullP : PrimaryData
  | single : ResourceObject → PrimaryData
  | list : List ResourceObject → PrimaryData
  | ident : ResourceIdentifier → PrimaryData
  | idents : List ResourceIdentifier → PrimaryData

/-- The top-level envelope; `none` models an absent member, `some` a present
member (so `data := some .nullP` is the present member `"data": null`). -/
structure Envelope where
  data : Option PrimaryData := none
  errors : Option (List ErrorObj) := none
  included : Option (List ResourceObject) := none
  links : Option Links := none
  jsonapi : Option String := none

instance : Inhabited Envelope := ⟨{}⟩

/-- Outcome of one handler invocation: a JSON response, a bodyless response
(`res.status(..).end()`), or delegation to the next middleware / the external
error handler (`next()` / `next(error)`). -/
inductive HandlerResult where
  | json : Nat → Envelope → HandlerResult
  | empty : Nat → HandlerResult
  | toNext : HandlerResult

instance : Inhabited HandlerResult := ⟨.toNext⟩

/-! ## Helper functions of the source module -/

/-- The composite dedup key of `deduplicateIncluded`:
the template string `` `${resource.type}:${resource.id}` ``. -/
def dedupKey (r : ResourceObject) : String :=
  r.type ++ ":" ++ r.id

/-- Loop of `deduplicateIncluded`: walk the array keeping the first entry per
key, threading the `seen` set. -/
def dedupGo (seen : List String) : List ResourceObject → List ResourceObject
  | [] => []
  | r :: rs =>
    if dedupKey r ∈ seen then dedupGo seen rs
    else r :: dedupGo (dedupKey r :: seen) rs

/-- `deduplicateIncluded`: deduplicate resources by the `type:id` key string,
keeping first occurrences. -/
def deduplicateIncluded (includedArray : List ResourceObject) :
    List ResourceObject :=
  dedupGo [] includedArray

/-- Model of the external `inflection.pluralize`: naive `+ "s"` (a pure
string utility, out of the engine's scope; claims do not depend on it). -/
def pluralizeModel (s : String) : String :=
  if s.endsWith "s" then s else s ++ "s"

/-- Character loop of `dasherizeModel` for non-initial characters. -/
def dashCharsRest : List Char → List Char
  | [] => []
  | c :: cs =>
    if c.isUpper then '-' :: c.toLower :: dashCharsRest cs
    else c :: dashCharsRest cs

/-- Model of the external `dasherize`: lower-case, inserting `-` before an
interior upper-case letter (pure string utility, out of scope). -/
def dasherizeModel (s : String) : String :=
  match s.data with
  | [] => s
  | c :: cs => String.mk (c.toLower :: dashCharsRest cs)

/-- `buildResourceUrl(baseUrl, modelName, id)`. -/
def buildResourceUrl (baseUrl modelName : String) (id : Option String) :
    String :=
  let path := dasherizeModel (pluralizeModel modelName)
  match id with
  | some i => baseUrl ++ "/" ++ path ++ "/" ++ i
  | none => baseUrl ++ "/" ++ path

/-- `buildRelationshipLinks(baseUrl, modelName, id, relationshipName, _)`. -/
def buildRelationshipLinks (baseUrl modelName id relationshipName : String) :
    Links :=
  let resourceUrl := buildResourceUrl baseUrl modelName (some id)
  { self := resourceUrl ++ "/relationships/" ++ relationshipName,
    related := some (resourceUrl ++ "/" ++ relationshipName) }

/-- `as[0].toLowerCase() + as.substring(1)` (the document name of a to-many
relationship; aliases are non-empty in practice). -/
def lowerFirst (s : String) : String :=
  match s.data with
  | [] => s
  | c :: cs => String.mk (c.toLower :: cs)

/-- The classification `getAssociationDataForModel` computes in one pass over
`model.associations`. -/
structure AssociationData where
  hasManyAssociations : List Association
  hasOneAssociations : List Association
  belongsToAssociations : List Association
  excludedKeys : List String

/-- Body of the `Object.keys(associations).forEach` loop of
`getAssociationDataForModel`. -/
def assocStep (ad : AssociationData) (a : Association) : AssociationData :=
  match a.associationType with
  | .HasMany =>
    { ad with hasManyAssociations := ad.hasManyAssociations ++ [a],
              excludedKeys := ad.excludedKeys ++ [a.as] }
  | .HasOne =>
    { ad with hasOneAssociations := ad.hasOneAssociations ++ [a],
              excludedKeys := ad.excludedKeys ++ [a.as] }
  | .BelongsTo =>
    { ad with belongsToAssociations := ad.belongsToAssociations ++ [a],
              excludedKeys := ad.excludedKeys ++ [a.foreignKey, a.as] }

/-- `getAssociationDataForModel`: split the associations by kind and collect
the attribute keys to exclude (every alias, plus belongs-to foreign keys). -/
def getAssociationDataForModel (m : Model) : AssociationData :=
  m.associations.foldl assocStep ⟨[], [], [], []⟩

/-- `findAssociationByRelationshipName`: resolve a document relationship name
to an association, trying hasMany (lower-cased alias), then hasOne
(alias + "Id"), then belongsTo (foreign key name). -/
def findAssociationByRelationshipName (m : Model) (relationshipName : String) :
    Option (Association × AssocType) :=
  let associationData := getAssociationDataForModel m
  match associationData.hasManyAssociations.find?
      (fun assoc => lowerFirst assoc.as = relationshipName) with
  | some a => some (a, .HasMany)
  | none =>
    match associationData.hasOneAssociations.find?
        (fun assoc => assoc.as ++ "Id" = relationshipName) with
    | some a => some (a, .HasOne)
    | none =>
      match associationData.belongsToAssociations.find?
          (fun assoc => assoc.foreignKey = relationshipName) with
      | some a => some (a, .BelongsTo)
      | none => none

/-- `formatJsonApiError(status, title, detail, source)`. -/
def formatJsonApiError (status : Nat) (title : String)
    (detail : Option String) (source : Option ErrSource) : ErrorObj :=
  { status := toString status, title := title, detail := detail,
    source := source }

/-- `sendJsonApiError`: the single-error envelope
`{ jsonapi: {version:"1.1"}, errors: [ ... ] }` with the given status. -/
def sendJsonApiError (status : Nat) (title : String)
    (detail : Option String) (source : Option ErrSource) :
    HandlerResult :=
  .json status
    { jsonapi := some "1.1",
      errors := some [formatJsonApiError status title detail source] }

/-! ## Filter translation (`isDateField`, `convertUnixToDate`,
`parseFilterParameters`) -/

/-- `isDateField(model, fieldName)`. -/
def isDateField (m : Model) (fieldName : String) : Bool :=
  match (m.rawAttributes.find? (fun p => p.1 = fieldName)).map Prod.snd with
  | some .DATE => true
  | some .DATEONLY => true
  | _ => false

/-- A raw filter value from the query string: a scalar or nothing; numbers
are embedded as integers (fractional `parseFloat` results are out of the
embedding's numeric domain). -/
inductive FVal where
  | fnull : FVal
  | fnum : Int → FVal
  | fstr : String → FVal
  deriving DecidableEq, Repr

/-- A filter entry: either a plain scalar or an operator object
`filter[field][op]=value`. -/
inductive FilterValue where
  | scalar : FVal → FilterValue
  | obj : List (String × FVal) → FilterValue
  deriving DecidableEq, Repr

/-- A translated comparison value: the scalar as given, or the engine-native
date a Unix-epoch-millisecond value was converted to (`dayjs.unix(t/1000)`),
carried as its millisecond count. -/
inductive QVal where
  | qnull : QVal
  | qnum : Int → QVal
  | qstr : String → QVal
  | qdate : Int → QVal
  deriving DecidableEq, Repr

/-- The recognized filter operators (`operatorMap`). -/
inductive FilterOp where
  | gt
  | gte
  | lt
  | lte
  | ne
  | like
  | inOp
  deriving DecidableEq, Repr

/-- `operatorMap[operator]`. -/
def operatorMap : String → Option FilterOp
  | "gt" => some .gt
  | "gte" => some .gte
  | "lt" => some .lt
  | "lte" => some .lte
  | "ne" => some .ne
  | "like" => some .like
  | "in" => some .inOp
  | _ => none

/-- The value attached to one operator: a single comparison value, or the
list an `in` string was split into. -/
inductive OpVal where
  | single : QVal → OpVal
  | list : List QVal → OpVal
  deriving DecidableEq, Repr

/-- One translated `where[field]` value. `ops` is the operator object built
from recognized keys; `litObj` is the fallback for an object containing an
unrecognized key: the raw value object used as the equality target, plus the
operator entries that recognized keys occurring after the first unrecognized
key attached to that same object (the source mutates the shared object). -/
inductive WhereVal where
  | lit : QVal → WhereVal
  | litList : List QVal → WhereVal
  | ops : List (FilterOp × OpVal) → WhereVal
  | litObj : List (String × FVal) → List (FilterOp × OpVal) → WhereVal
  deriving DecidableEq, Repr

/-- The translated restriction passed to the persistence engine. -/
abbrev WhereClause := List (String × WhereVal)

/-- Leading-integer model of JavaScript `parseFloat` on a string: an optional
sign followed by at least one digit, trailing characters ignored;
`none` models `NaN`. -/
def parseNum (s : String) : Option Int :=
  let digitsOf : List Char → Option Nat := fun cs =>
    let ds := cs.takeWhile Char.isDigit
    if ds.isEmpty then none
    else some (ds.foldl (fun n c => n * 10 + (c.toNat - '0'.toNat)) 0)
  match s.data with
  | '-' :: rest => (digitsOf rest).map (fun n => -(n : Int))
  | cs => (digitsOf cs).map (fun n => (n : Int))

/-- Character-level comma split. -/
def splitCommaChars : List Char → List (List Char)
  | [] => [[]]
  | c :: cs =>
    if c = ',' then [] :: splitCommaChars cs
    else
      match splitCommaChars cs with
      | [] => [[c]]
      | g :: gs => (c :: g) :: gs

/-- JavaScript `s.split(',')` (kernel-computable model; `""` yields
`[""]`). -/
def jsSplitComma (s : String) : List String :=
  (splitCommaChars s.data).map String.mk

/-- Inclusion of raw filter scalars into comparison values. -/
def qvalOfF : FVal → QVal
  | .fnull => .qnull
  | .fnum n => .qnum n
  | .fstr s => .qstr s

/-- `convertUnixToDate(value)`: null and the empty string pass through, a
numeric value (or numeric string) is interpreted as epoch milliseconds and
becomes a date, a non-numeric string passes through unconverted. -/
def convertUnixToDate : FVal → QVal
  | .fnull => .qnull
  | .fnum n => .qdate n
  | .fstr s =>
    if s = "" then .qstr s
    else
      match parseNum s with
      | some t => .qdate t
      | none => .qstr s

/-- `obj[op] = entry` on an operator object: JavaScript assignment replaces
an existing key, otherwise appends. -/
def setOpEntry (l : List (FilterOp × OpVal)) (o : FilterOp) (e : OpVal) :
    List (FilterOp × OpVal) :=
  if (l.find? (fun p => p.1 = o)).isSome then
    l.map (fun p => if p.1 = o then (o, e) else p)
  else
    l ++ [(o, e)]

/-- The comparison entry a recognized operator key contributes: date fields
convert scalars (except under `in`), and an `in` string is split on commas,
converting each piece for date fields. -/
def opEntryFor (isDate : Bool) (o : FilterOp) (v : FVal) : OpVal :=
  match o, v with
  | .inOp, .fstr s =>
    let values := jsSplitComma s
    .list (values.map (fun x =>
      if isDate then convertUnixToDate (.fstr x) else .qstr x))
  | .inOp, v => .single (qvalOfF v)
  | _, v => .single (if isDate then convertUnixToDate v else qvalOfF v)

/-- One step of the `Object.keys(value).forEach` loop translating an operator
object; the state is the current `where[field]` referent. A recognized key
writes its entry into that referent (the fresh operator object, or — after a
fallback — the shared raw value object); an unrecognized key rebinds
`where[field]` to the raw value object, discarding entries written to the
fresh object. -/
def translateStep (pairs : List (String × FVal)) (isDate : Bool)
    (cur : WhereVal) (kv : String × FVal) : WhereVal :=
  match operatorMap kv.1 with
  | some o =>
    let entry := opEntryFor isDate o kv.2
    match cur with
    | .ops l => .ops (setOpEntry l o entry)
    | .litObj p e => .litObj p (setOpEntry e o entry)
    | other => other
  | none =>
    match cur with
    | .litObj p e => .litObj p e
    | _ => .litObj pairs []

/-- Translation of one operator object (`where[field] = {}` followed by the
key loop). -/
def translateObj (pairs : List (String × FVal)) (isDate : Bool) : WhereVal :=
  pairs.foldl (translateStep pairs isDate) (.ops [])

/-- `parseFilterParameters(filter, model)`. -/
def parseFilterParameters (filter : List (String × FilterValue)) (m : Model) :
    WhereClause :=
  filter.map (fun fv =>
    let isDate := isDateField m fv.1
    match fv.2 with
    | .obj pairs => (fv.1, translateObj pairs isDate)
    | .scalar v =>
      (fv.1, .lit (if isDate then convertUnixToDate v else qvalOfF v)))

/-! ## Content-type validation middleware -/

/-- Result of the `validateContentType` middleware: an error response, or
passing the request on (`next()`). -/
inductive MwResult where
  | handled : HandlerResult → MwResult
  | next : MwResult

/-- The JSON:API media type constant. -/
def JSONAPI_CONTENT_TYPE : String := "application/vnd.api+json"

/-- JavaScript `String.prototype.startsWith`, on character lists. -/
def jsStartsWith (s p : String) : Bool :=
  p.data.isPrefixOf s.data

/-- `validateContentType(req, res, next)`: on POST/PATCH, require a
Content-Type header (400 otherwise); require it to be exactly the JSON:API
media type, distinguishing a parameterized form of the correct base type
(415 with a dedicated detail) from a wrong media type (415 generic). -/
def validateContentType (method : String) (contentType : Option String) :
    MwResult :=
  if method = "POST" ∨ method = "PATCH" then
    match contentType with
    | none =>
      .handled (sendJsonApiError 400 "Missing Content-Type"
        (some "Content-Type header is required for requests with a body")
        none)
    | some ct =>
      if ct = JSONAPI_CONTENT_TYPE then .next
      else if jsStartsWith ct (JSONAPI_CONTENT_TYPE ++ ";") ∨
          jsStartsWith ct (JSONAPI_CONTENT_TYPE ++ " ") then
        .handled (sendJsonApiError 415 "Unsupported Media Type"
          (some "Content-Type header must be application/vnd.api+json without media type parameters")
          none)
      else
        .handled (sendJsonApiError 415 "Unsupported Media Type"
          (some ("Content-Type must be " ++ JSONAPI_CONTENT_TYPE))
          (some (.header "Content-Type")))
  else
    .next

/-! ## Resource object construction -/

/-- `buildResourceIdentifierObject(modelName, id)`. -/
def buildResourceIdentifierObject (modelName : String) (id : Option Val) :
    ResourceIdentifier :=
  { id := jsStringOfVal id, type := modelName }

/-- `buildSimpleResourceObject(instance, excludedAttributes)`: string id,
type, and every `dataValues` key except `"id"` and the excluded keys. -/
def buildSimpleResourceObject (inst : Inst)
    (excludedAttributes : List String) : ResourceObject :=
  { id := jsStringOfVal (lookupF inst.fields "id"),
    type := inst.modelName,
    attributes := inst.fields.filter
      (fun p => p.1 ≠ "id" ∧ p.1 ∉ excludedAttributes),
    relationships := none }

/-- The `belongsToAssociations.forEach` of the builder: linkage is derived
from the foreign key column value on the row itself (null or missing means
null linkage); nothing is pushed onto the `included` accumulator. -/
def buildBelongsToRels (m : Model) (rowValues : List (String × Val))
    (baseUrl : Option String) :
    List Association → List (String × RelationshipObject)
  | [] => []
  | associationKey :: rest =>
    let data : RelData :=
      match lookupF rowValues associationKey.foreignKey with
      | some .vnull => .nullR
      | none => .nullR
      | some v =>
        .one (buildResourceIdentifierObject associationKey.target (some v))
    let relationship : RelationshipObject :=
      { data := data,
        links := baseUrl.map (fun b =>
          buildRelationshipLinks b m.name
            (jsStringOfVal (lookupF rowValues "id"))
            associationKey.foreignKey) }
    (associationKey.foreignKey, relationship) ::
      buildBelongsToRels m rowValues baseUrl rest

/-- `buildResourceObjectForInstance(instance, model, simple, baseUrl)`.
The JavaScript recursion is embedded with fuel (structural recursion on the
fuel only, so concrete runs compute); `none` signals fuel exhaustion only —
the handlers' one-level loads need fuel 2, see `buildFuel`.  Returns the
resource object together with the `included` accumulator of recursively
built related resource objects.  The `hasManyAssociations.forEach` collects
ordered identifier linkage from the loaded rows under the alias and
recursively builds and pushes each loaded row (a missing or null alias
value is falsy and skipped; an empty loaded array is truthy and yields
empty linkage); the `hasOneAssociations.forEach` does the same for a single
loaded instance (null linkage when null or missing); belongs-to linkage
comes from the foreign key column and pushes nothing. -/
def buildResourceObjectForInstance :
    Nat → Registry → Inst → Model → Bool → Option String →
    Option (ResourceObject × List ResourceObject)
  | 0, _, _, _, _, _ => none
  | fuel + 1, reg, inst, m, simple, baseUrl =>
    let rowValues := inst.fields
    let associationData := getAssociationDataForModel m
    let resourceObject :=
      buildSimpleResourceObject inst associationData.excludedKeys
    if simple then
      some (resourceObject, [])
    else
      let hm := associationData.hasManyAssociations.foldl
        (fun (acc : List (String × RelationshipObject) × List ResourceObject)
            associationKey =>
          let entities : List Inst :=
            match lookupF rowValues associationKey.as with
            | some (.vlist l) => l
            | _ => []
          let step := entities.foldl
            (fun (acc2 : List ResourceIdentifier × List ResourceObject)
                entity =>
              let ident := buildResourceIdentifierObject entity.modelName
                (lookupF entity.fields "id")
              match buildResourceObjectForInstance fuel reg entity
                  (lookupModel reg associationKey.target) false baseUrl with
              | some er => (acc2.1 ++ [ident], acc2.2 ++ [er.1] ++ er.2)
              | none => (acc2.1 ++ [ident], acc2.2))
            ([], [])
          let relationshipName := lowerFirst associationKey.as
          let relationship : RelationshipObject :=
            { data := .many step.1,
              links := baseUrl.map (fun b =>
                buildRelationshipLinks b m.name
                  (jsStringOfVal (lookupF rowValues "id")) relationshipName) }
          (acc.1 ++ [(relationshipName, relationship)], acc.2 ++ step.2))
        ([], [])
      let ho := associationData.hasOneAssociations.foldl
        (fun (acc : List (String × RelationshipObject) × List ResourceObject)
            associationKey =>
          let step : RelData × List ResourceObject :=
            match lookupF rowValues associationKey.as with
            | some (.vinst entity) =>
              let ident := buildResourceIdentifierObject entity.modelName
                (lookupF entity.fields "id")
              match buildResourceObjectForInstance fuel reg entity
                  (lookupModel reg associationKey.target) false baseUrl with
              | some er => (.one ident, [er.1] ++ er.2)
              | none => (.one ident, [])
            | _ => (.nullR, [])
          let relationshipName := associationKey.as ++ "Id"
          let relationship : RelationshipObject :=
            { data := step.1,
              links := baseUrl.map (fun b =>
                buildRelationshipLinks b m.name
                  (jsStringOfVal (lookupF rowValues "id")) relationshipName) }
          (acc.1 ++ [(relationshipName, relationship)], acc.2 ++ step.2))
        ([], [])
      let bt := buildBelongsToRels m rowValues baseUrl
        associationData.belongsToAssociations
      some ({ resourceObject with relationships := some (hm.1 ++ ho.1 ++ bt) },
        hm.2 ++ ho.2)

/-- The `hasManyAssociations.forEach` loop of the builder, extracted with
its fuel made explicit (definitionally the fold the builder runs). -/
def buildHasManyRels (fuel : Nat) (reg : Registry) (m : Model)
    (rowValues : List (String × Val)) (baseUrl : Option String)
    (l : List Association) :
    List (String × RelationshipObject) × List ResourceObject :=
  l.foldl
    (fun (acc : List (String × RelationshipObject) × List ResourceObject)
        associationKey =>
      let entities : List Inst :=
        match lookupF rowValues associationKey.as with
        | some (.vlist l) => l
        | _ => []
      let step := entities.foldl
        (fun (acc2 : List ResourceIdentifier × List ResourceObject) entity =>
          let ident := buildResourceIdentifierObject entity.modelName
            (lookupF entity.fields "id")
          match buildResourceObjectForInstance fuel reg entity
              (lookupModel reg associationKey.target) false baseUrl with
          | some er => (acc2.1 ++ [ident], acc2.2 ++ [er.1] ++ er.2)
          | none => (acc2.1 ++ [ident], acc2.2))
        ([], [])
      let relationshipName := lowerFirst associationKey.as
      let relationship : RelationshipObject :=
        { data := .many step.1,
          links := baseUrl.map (fun b =>
            buildRelationshipLinks b m.name
              (jsStringOfVal (lookupF rowValues "id")) relationshipName) }
      (acc.1 ++ [(relationshipName, relationship)], acc.2 ++ step.2))
    ([], [])

/-- The `hasOneAssociations.forEach` loop of the builder, extracted with its
fuel made explicit (definitionally the fold the builder runs). -/
def buildHasOneRels (fuel : Nat) (reg : Registry) (m : Model)
    (rowValues : List (String × Val)) (baseUrl : Option String)
    (l : List Association) :
    List (String × RelationshipObject) × List ResourceObject :=
  l.foldl
    (fun (acc : List (String × RelationshipObject) × List ResourceObject)
        associationKey =>
      let step : RelData × List ResourceObject :=
        match lookupF rowValues associationKey.as with
        | some (.vinst entity) =>
          let ident := buildResourceIdentifierObject entity.modelName
            (lookupF entity.fields "id")
          match buildResourceObjectForInstance fuel reg entity
              (lookupModel reg associationKey.target) false baseUrl with
          | some er => (.one ident, [er.1] ++ er.2)
          | none => (.one ident, [])
        | _ => (.nullR, [])
      let relationshipName := associationKey.as ++ "Id"
      let relationship : RelationshipObject :=
        { data := step.1,
          links := baseUrl.map (fun b =>
            buildRelationshipLinks b m.name
              (jsStringOfVal (lookupF rowValues "id")) relationshipName) }
      (acc.1 ++ [(relationshipName, relationship)], acc.2 ++ step.2))
    ([], [])

/-- Fuel sufficient for every handler call site: every handler loads the
association graph exactly one level deep, so the recursion visits the root
and its directly loaded rows only. -/
def buildFuel : Nat := 2

/-! ## The persistence-engine boundary -/

/-- A freshly fetched instance with no loaded associations. -/
def bareInst (modelName : String) (r : Row) : Inst :=
  .mk modelName r

/-- Model of a `findAll`/`findByPk` include load: for each listed hasMany
association the target rows whose foreign key equals the parent's primary
key value (in table order), for each hasOne the first such row or null, for
each belongsTo the target row the parent's foreign key points at or null.
Loaded aliases are appended to `dataValues` after the column values; nested
instances carry no loaded aliases (one-level include specs). -/
def loadRow (db : DB) (reg : Registry) (m : Model) (r : Row)
    (hms hos bts : List Association) : Inst :=
  let pkVal := lookupF r m.primaryKeyAttribute
  let matchesFk := fun (a : Association) (tr : Row) =>
    match pkVal, lookupF tr a.foreignKey with
    | some pv, some fv => scalarValEq fv pv
    | _, _ => false
  let hmFields := hms.map (fun a =>
    (a.as, Val.vlist ((findAllRows db a.target).filter (matchesFk a)
      |>.map (bareInst a.target))))
  let hoFields := hos.map (fun a =>
    (a.as, match (findAllRows db a.target).find? (matchesFk a) with
      | some tr => Val.vinst (bareInst a.target tr)
      | none => Val.vnull))
  let btFields := bts.map (fun a =>
    (a.as, match lookupF r a.foreignKey with
      | some fv =>
        if jsTruthyVal fv then
          let target := lookupModel reg a.target
          match (findAllRows db a.target).find?
              (fun tr => match lookupF tr target.primaryKeyAttribute with
                | some pv => scalarValEq pv fv
                | none => false) with
          | some tr => Val.vinst (bareInst a.target tr)
          | none => Val.vnull
        else Val.vnull
      | none => Val.vnull))
  .mk m.name (r ++ hmFields ++ hoFields ++ btFields)

/-- `fetchAndBuildResourceObjectForModelById(model, id, options, simple,
baseUrl)`: `findByPk` with the given include lists, then the builder;
`none` is the not-found case (the builder returns null for a null row). -/
def fetchAndBuildResourceObjectForModelById (reg : Registry) (db : DB)
    (m : Model) (pid : Int) (hms hos bts : List Association) (simple : Bool)
    (baseUrl : Option String) : Option (ResourceObject × List ResourceObject) :=
  match findRowByPk db m pid with
  | none => none
  | some r =>
    buildResourceObjectForInstance buildFuel reg
      (loadRow db reg m r hms hos bts) m simple baseUrl

/-! ## Persistence-engine queries and mutations (external boundary) -/

/-- Scalar equality of a row value against a translated comparison value,
with the engine's numeric-string coercion. -/
def qValMatches (v : Val) (q : QVal) : Bool :=
  match v, q with
  | .vnull, .qnull => true
  | .vint n, .qnum m => n = m
  | .vint n, .qstr s => toString n = s
  | .vint n, .qdate m => n = m
  | .vstr s, .qstr t => s = t
  | .vstr s, .qnum m => parseNum s = some m
  | _, _ => false

/-- Ordering of a row value against a comparison value where the engine can
order them. -/
def qValCompare (v : Val) (q : QVal) : Option Ordering :=
  match v, q with
  | .vint n, .qnum m => some (compare n m)
  | .vint n, .qdate m => some (compare n m)
  | .vstr s, .qstr t => some (compare s t)
  | _, _ => none

/-- SQL `LIKE` with `%` wildcards (engine model). -/
def likeChars : List Char → List Char → Bool
  | [], s => s.isEmpty
  | '%' :: ps, [] => likeChars ps []
  | '%' :: ps, c :: cs => likeChars ps (c :: cs) || likeChars ('%' :: ps) cs
  | _ :: _, [] => false
  | p :: ps, c :: cs => p = c && likeChars ps cs
  termination_by ps s => (ps.length, s.length)

/-- One operator comparison against a row value (engine model). -/
def evalOpEntry (v : Val) : FilterOp × OpVal → Bool
  | (.gt, .single q) => qValCompare v q = some .gt
  | (.gte, .single q) =>
    qValCompare v q = some .gt ∨ qValCompare v q = some .eq
  | (.lt, .single q) => qValCompare v q = some .lt
  | (.lte, .single q) =>
    qValCompare v q = some .lt ∨ qValCompare v q = some .eq
  | (.ne, .single q) => ¬qValMatches v q
  | (.like, .single q) =>
    match v, q with
    | .vstr s, .qstr pat => likeChars pat.data s.data
    | _, _ => false
  | (.inOp, .list qs) => qs.any (qValMatches v)
  | (.inOp, .single q) => qValMatches v q
  | (_, .list _) => false

/-- Evaluation of one translated `where[field]` value against a row value
(engine model); the junk fallback object matches nothing. -/
def evalWhereVal (v : Option Val) : WhereVal → Bool
  | .lit q => match v with
    | some w => qValMatches w q
    | none => false
  | .litList qs => match v with
    | some w => qs.any (qValMatches w)
    | none => false
  | .ops l => match v with
    | some w => l.all (evalOpEntry w)
    | none => false
  | .litObj _ _ => false

/-- Whole-clause evaluation (engine model): all fields must match. -/
def matchesWhere (w : WhereClause) (r : Row) : Bool :=
  w.all (fun fv => evalWhereVal (lookupF r fv.1) fv.2)

/-- Rewrite one table of the database. -/
def mapTable (db : DB) (n : String) (f : List Row → List Row) : DB :=
  ⟨db.tables.map (fun p => if p.1 = n then (p.1, f p.2) else p)⟩

/-- `Model.update({field: v}, {where})` (engine model): set the field on
every row of the table satisfying the restriction. -/
def dbUpdateWhere (db : DB) (modelName field : String) (v : Val)
    (pred : Row → Bool) : DB :=
  mapTable db modelName
    (List.map (fun r => if pred r then setField r field v else r))

/-- `row.update(attributes)` (engine model): set the given fields on every
row whose primary key equals the given id. -/
def dbUpdateByPk (db : DB) (m : Model) (pid : Int)
    (attrs : List (String × Val)) : DB :=
  mapTable db m.name
    (List.map (fun r =>
      match lookupF r m.primaryKeyAttribute with
      | some v =>
        if scalarValEq v (.vint pid) then
          attrs.foldl (fun acc p => setField acc p.1 p.2) r
        else r
      | none => r))

/-- `instance.destroy()` (engine model): remove the row(s) with the given
primary key. -/
def dbDeleteByPk (db : DB) (m : Model) (pid : Int) : DB :=
  mapTable db m.name
    (List.filter (fun r =>
      match lookupF r m.primaryKeyAttribute with
      | some v => ¬scalarValEq v (.vint pid)
      | none => true))

/-- Auto-increment model: one more than the largest integer primary key. -/
def nextId (db : DB) (m : Model) : Int :=
  ((findAllRows db m.name).foldl
    (fun acc r => match lookupF r m.primaryKeyAttribute with
      | some (.vint n) => max acc n
      | _ => acc) 0) + 1

/-- Append a row to a table, creating the table if absent. -/
def dbInsert (db : DB) (n : String) (row : Row) : DB :=
  if (db.tables.find? (fun p => p.1 = n)).isSome then
    mapTable db n (fun rows => rows ++ [row])
  else
    ⟨db.tables ++ [(n, [row])]⟩

/-- `model.create(attributes)` (engine model): validator failure raises a
`SequelizeValidationError`; otherwise a row is inserted whose primary key is
the supplied value or the next auto-increment value, and `row.get('id')` is
returned (`none` models `undefined` when no `id` field exists). -/
def dbCreate (db : DB) (m : Model) (attrs : List (String × Val)) :
    Except (List (String × String)) (DB × Option Int) :=
  match m.validate attrs with
  | [] =>
    let newPk : Int :=
      match lookupF attrs m.primaryKeyAttribute with
      | some (.vint n) => n
      | _ => nextId db m
    let row : Row := (m.primaryKeyAttribute, Val.vint newPk) ::
      attrs.filter (fun p => p.1 ≠ m.primaryKeyAttribute)
    let resourceId : Option Int :=
      match lookupF row "id" with
      | some (.vint n) => some n
      | _ => none
    .ok (dbInsert db m.name row, resourceId)
  | errs => .error errs

/-- Foreign-key restriction `{ [association.foreignKey]: parentId }`. -/
def fkMatches (association : Association) (parentId : Int) (r : Row) : Bool :=
  match lookupF r association.foreignKey with
  | some fv => scalarValEq fv (.vint parentId)
  | none => false

/-- `target.findByPk(value)` where the value is a foreign-key column value. -/
def findTargetByPkVal (db : DB) (reg : Registry) (association : Association)
    (fkv : Val) : Option Row :=
  let target := lookupModel reg association.target
  (findAllRows db association.target).find?
    (fun r => match lookupF r target.primaryKeyAttribute with
      | some pv => scalarValEq pv fkv
      | none => false)

/-! ## Request shapes -/

/-- A resource identifier in a request body (`{type, id}`). -/
structure BodyIdent where
  type : String
  id : Int
  deriving DecidableEq, Repr

/-- One relationship entry of a create/update body; `data := none` models
`"data": null` (and `undefined`), which clears the foreign key. -/
structure RelSpec where
  data : Option BodyIdent
  deriving DecidableEq, Repr

/-- Body of a create/update request: `none` members model absent ones. -/
structure CreateBody where
  attributes : Option (List (String × Val))
  relationships : Option (List (String × RelSpec))

/-- The `data` member of a relationship-write body. -/
inductive BodyData where
  | nullD : BodyData
  | ident : BodyIdent → BodyData
  | identList : List BodyIdent → BodyData

/-- Query parameters of a GetList request: the parsed `filter` object,
whether an `include` parameter is present, and the raw query-string suffix
used in the self link. -/
structure GLQuery where
  filter : Option (List (String × FilterValue))
  includeParam : Bool
  queryString : String

/-! ## The eight operation handlers -/

/-- The `{data, included?, links, jsonapi}` envelope of a successful Create:
`included` is added only when the collected list is non-empty. -/
def createSuccessEnvelope (baseUrl : String) (m : Model) (rid : Int)
    (ro : ResourceObject) (inc : List ResourceObject) : Envelope :=
  { data := some (.single ro),
    included := if inc.length > 0 then some inc else none,
    links := some { self := buildResourceUrl baseUrl m.name (some (toString rid)) },
    jsonapi := some "1.1" }

/-- Merge belongs-to relationship entries of a request body into the
attributes (`attributes[belongsTo.foreignKey] = relationship.data.id`,
or null when linkage is null). -/
def mergeBelongsToRels (belongsToAssociations : List Association)
    (relationshipsData : List (String × RelSpec))
    (attrs : List (String × Val)) : List (String × Val) :=
  belongsToAssociations.foldl
    (fun acc belongsTo =>
      match (relationshipsData.find?
          (fun p => p.1 = belongsTo.foreignKey)).map Prod.snd with
      | none => acc
      | some relationship =>
        match relationship.data with
        | some d => setField acc belongsTo.foreignKey (.vint d.id)
        | none => setField acc belongsTo.foreignKey .vnull)
    attrs

/-- `jsonapi.Create(model)`: validate the body shape, merge belongs-to
linkage into the attributes, create the row, re-fetch it with a one-level
include of every association, and answer 201 with the full document. -/
def Create (reg : Registry) (baseUrl : String) (db : DB) (m : Model)
    (body : Option CreateBody) : HandlerResult × DB :=
  match body with
  | none =>
    (sendJsonApiError 400 "Invalid Request"
      (some "Request body must contain a \"data\" object")
      (some (.pointer "/data")), db)
  | some cb =>
    match cb.attributes with
    | none =>
      (sendJsonApiError 400 "Invalid Request"
        (some "Request body must contain \"data.attributes\"")
        (some (.pointer "/data/attributes")), db)
    | some attrs0 =>
      let relationshipsData := cb.relationships.getD []
      let associationData := getAssociationDataForModel m
      let attrs := mergeBelongsToRels associationData.belongsToAssociations
        relationshipsData attrs0
      match dbCreate db m attrs with
      | .error errs =>
        (.json 422
          { jsonapi := some "1.1",
            errors := some (errs.map (fun e =>
              formatJsonApiError 422 "Validation Error" (some e.2)
                (some (.pointer ("/data/attributes/" ++ e.1))))) }, db)
      | .ok created =>
        match created.2 with
        | none => (.toNext, created.1)
        | some rid =>
          match fetchAndBuildResourceObjectForModelById reg created.1 m rid
              associationData.hasManyAssociations
              associationData.hasOneAssociations
              associationData.belongsToAssociations false (some baseUrl) with
          | none => (.toNext, created.1)
          | some obj =>
            (.json 201 (createSuccessEnvelope baseUrl m rid obj.1 obj.2),
              created.1)

/-- `jsonapi.GetSingle(model)`: truthiness of the raw `simple` query value
selects the simplified document; non-simple requests load every association
one level deep and carry a top-level self link. -/
def GetSingle (reg : Registry) (baseUrl : String) (db : DB) (m : Model)
    (rid : Int) (simpleQ : Option String) : HandlerResult × DB :=
  let simple := jsTruthyStr simpleQ
  let associationData := getAssociationDataForModel m
  let hms := if simple then [] else associationData.hasManyAssociations
  let hos := if simple then [] else associationData.hasOneAssociations
  let bts := if simple then [] else associationData.belongsToAssociations
  match fetchAndBuildResourceObjectForModelById reg db m rid hms hos bts
      simple (if simple then none else some baseUrl) with
  | none =>
    (sendJsonApiError 404 "Resource Not Found"
      (some (m.name ++ " with id " ++ toString rid ++ " not found")) none, db)
  | some obj =>
    (.json 200
      { data := some (.single obj.1),
        links := if simple then none
          else some { self := buildResourceUrl baseUrl m.name (some (toString rid)) },
        jsonapi := some "1.1" }, db)

/-- `jsonapi.GetList(model)`: with no filter and no include parameter, the
plain simple-mode listing; otherwise the coalesced fetch with a one-level
include, restricted by the id list or the translated filter. -/
def GetList (reg : Registry) (baseUrl : String) (db : DB) (m : Model)
    (q : GLQuery) : HandlerResult × DB :=
  let cls : Option (Option (List String) × Option (List (String × FilterValue))) :=
    match q.filter with
    | none => some (none, none)
    | some f =>
      match (f.find? (fun p => p.1 = "id")).map Prod.snd with
      | some (.obj _) => some (none, some f)
      | some (.scalar (.fstr s)) => some (some (jsSplitComma s), none)
      | some (.scalar _) => none
      | none => some (none, some f)
  match cls with
  | none => (.toNext, db)
  | some cl =>
    if cl.1 = none ∧ cl.2 = none ∧ q.includeParam = false then
      let rows := findAllRows db m.name
      let dataList := rows.filterMap (fun r =>
        (buildResourceObjectForInstance buildFuel reg (bareInst m.name r) m
          true none).map Prod.fst)
      (.json 200
        { data := some (.list dataList),
          links := some { self := buildResourceUrl baseUrl m.name none },
          jsonapi := some "1.1" }, db)
    else
      let associationData := getAssociationDataForModel m
      let whereC : WhereClause :=
        match cl.1 with
        | some l => [("id", .litList (l.map QVal.qstr))]
        | none =>
          match cl.2 with
          | some f => parseFilterParameters f m
          | none => []
      let rows := (findAllRows db m.name).filter (matchesWhere whereC)
      let dataList := rows.filterMap (fun r =>
        (buildResourceObjectForInstance buildFuel reg
          (loadRow db reg m r associationData.hasManyAssociations
            associationData.hasOneAssociations
            associationData.belongsToAssociations) m false
          (some baseUrl)).map Prod.fst)
      (.json 200
        { data := some (.list dataList),
          links := some { self := buildResourceUrl baseUrl m.name none ++ q.queryString },
          jsonapi := some "1.1" }, db)

/-- `jsonapi.Update(model)`: validate body shape, 404 when the row is
missing, normalize empty strings to null, merge belongs-to linkage, update
the row, and answer 200 with the re-fetched full document. -/
def Update (reg : Registry) (baseUrl : String) (db : DB) (m : Model)
    (rid : Int) (body : Option CreateBody) : HandlerResult × DB :=
  match body with
  | none =>
    (sendJsonApiError 400 "Invalid Request"
      (some "Request body must contain a \"data\" object")
      (some (.pointer "/data")), db)
  | some cb =>
    match cb.attributes with
    | none =>
      (sendJsonApiError 400 "Invalid Request"
        (some "Request body must contain \"data.attributes\"")
        (some (.pointer "/data/attributes")), db)
    | some attrs0 =>
      let associationData := getAssociationDataForModel m
      match findRowByPk db m rid with
      | none =>
        (sendJsonApiError 404 "Resource Not Found"
          (some (m.name ++ " with id " ++ toString rid ++ " not found")) none,
          db)
      | some _row =>
        let attrs1 := attrs0.map (fun p =>
          match p.2 with
          | .vstr s => if s = "" then (p.1, Val.vnull) else p
          | _ => p)
        let attrs2 :=
          match cb.relationships with
          | none => attrs1
          | some rl =>
            mergeBelongsToRels associationData.belongsToAssociations rl attrs1
        match m.validate attrs2 with
        | [] =>
          let db1 := dbUpdateByPk db m rid attrs2
          match fetchAndBuildResourceObjectForModelById reg db1 m rid
              associationData.hasManyAssociations
              associationData.hasOneAssociations
              associationData.belongsToAssociations false (some baseUrl) with
          | none =>
            (sendJsonApiError 404 "Resource Not Found"
              (some (m.name ++ " with id " ++ toString rid ++ " not found"))
              none, db1)
          | some obj =>
            (.json 200
              { data := some (.single obj.1),
                links := some
                  { self := buildResourceUrl baseUrl m.name (some (toString rid)) },
                jsonapi := some "1.1" }, db1)
        | errs =>
          (.json 422
            { jsonapi := some "1.1",
              errors := some (errs.map (fun e =>
                formatJsonApiError 422 "Validation Error" (some e.2)
                  (some (.pointer ("/data/attributes/" ++ e.1))))) }, db)

/-- `jsonapi.Delete(model)`: 404 when the row is missing, otherwise destroy
it and answer 204 with no body. -/
def Delete (db : DB) (m : Model) (rid : Int) : HandlerResult × DB :=
  match findRowByPk db m rid with
  | none =>
    (sendJsonApiError 404 "Resource Not Found"
      (some (m.name ++ " with id " ++ toString rid ++ " not found")) none, db)
  | some _ => (.empty 204, dbDeleteByPk db m rid)

/-- The relationship linkage a relationship endpoint reads back: all target
rows pointing at the parent (to-many), the first such row (has-one), or the
row the parent's truthy foreign key points at (belongs-to). -/
def readRelationshipData (reg : Registry) (db : DB) (association : Association)
    (associationType : AssocType) (rid : Int) (parentRow : Row) : RelData :=
  match associationType with
  | .HasMany =>
    .many ((findAllRows db association.target).filter (fkMatches association rid)
      |>.map (fun r =>
        buildResourceIdentifierObject association.target (lookupF r "id")))
  | .HasOne =>
    match (findAllRows db association.target).find? (fkMatches association rid) with
    | some r =>
      .one (buildResourceIdentifierObject association.target (lookupF r "id"))
    | none => .nullR
  | .BelongsTo =>
    match lookupF parentRow association.foreignKey with
    | some fkv =>
      if jsTruthyVal fkv then
        match findTargetByPkVal db reg association fkv with
        | some r =>
          .one (buildResourceIdentifierObject association.target (lookupF r "id"))
        | none => .nullR
      else .nullR
    | none => .nullR

/-- Primary data of a relationship document (`data` starts as null and is
overwritten by the fetched linkage). -/
def primaryOfRelData : RelData → PrimaryData
  | .nullR => .nullP
  | .one i => .ident i
  | .many l => .idents l

/-- The `self`/`related` links of a relationship endpoint. -/
def relationshipEndpointLinks (baseUrl : String) (m : Model) (rid : Int)
    (rel : String) : Links :=
  { self := buildResourceUrl baseUrl m.name (some (toString rid)) ++
      "/relationships/" ++ rel,
    related := some (buildResourceUrl baseUrl m.name (some (toString rid)) ++
      "/" ++ rel) }

/-- `jsonapi.GetRelationship(model)`: resolve the relationship name (404),
check the parent row (404), and answer 200 with identifier linkage. -/
def GetRelationship (reg : Registry) (baseUrl : String) (db : DB) (m : Model)
    (rid : Int) (rel : String) : HandlerResult × DB :=
  match findAssociationByRelationshipName m rel with
  | none =>
    (sendJsonApiError 404 "Relationship Not Found"
      (some ("Relationship '" ++ rel ++ "' not found on " ++ m.name)) none, db)
  | some assoc =>
    match findRowByPk db m rid with
    | none =>
      (sendJsonApiError 404 "Resource Not Found"
        (some (m.name ++ " with id " ++ toString rid ++ " not found")) none, db)
    | some parentRow =>
      (.json 200
        { data := some (primaryOfRelData
            (readRelationshipData reg db assoc.1 assoc.2 rid parentRow)),
          links := some (relationshipEndpointLinks baseUrl m rid rel),
          jsonapi := some "1.1" }, db)

/-- The mutation phase of `jsonapi.UpdateRelationship(model)`: either a 400
shape error (no rows touched) or the new database. -/
def updateRelationshipWrite (db : DB) (m : Model) (rid : Int)
    (association : Association) (associationType : AssocType)
    (d : BodyData) : HandlerResult ⊕ DB :=
  match associationType with
  | .HasMany =>
    match d with
    | .identList identifiers =>
      let relatedIds := identifiers.map BodyIdent.id
      let db1 := dbUpdateWhere db association.target association.foreignKey
        .vnull (fkMatches association rid)
      let db2 :=
        if relatedIds.length > 0 then
          dbUpdateWhere db1 association.target association.foreignKey
            (.vint rid)
            (fun r => match lookupF r "id" with
              | some (.vint i) => relatedIds.contains i
              | _ => false)
        else db1
      .inr db2
    | _ =>
      .inl (sendJsonApiError 400 "Invalid Request"
        (some "For to-many relationships, data must be an array")
        (some (.pointer "/data")))
  | .HasOne =>
    match d with
    | .identList _ =>
      .inl (sendJsonApiError 400 "Invalid Request"
        (some "For to-one relationships, data must be a resource identifier object or null")
        (some (.pointer "/data")))
    | .nullD =>
      .inr (dbUpdateWhere db association.target association.foreignKey .vnull
        (fkMatches association rid))
    | .ident i =>
      let db1 := dbUpdateWhere db association.target association.foreignKey
        .vnull (fkMatches association rid)
      .inr (dbUpdateWhere db1 association.target association.foreignKey
        (.vint rid)
        (fun r => match lookupF r "id" with
          | some (.vint j) => j = i.id
          | _ => false))
  | .BelongsTo =>
    match d with
    | .identList _ =>
      .inl (sendJsonApiError 400 "Invalid Request"
        (some "For to-one relationships, data must be a resource identifier object or null")
        (some (.pointer "/data")))
    | .nullD => .inr (dbUpdateByPk db m rid [(association.foreignKey, .vnull)])
    | .ident i =>
      .inr (dbUpdateByPk db m rid [(association.foreignKey, .vint i.id)])

/-- `jsonapi.UpdateRelationship(model)`: require a `data` member (400),
resolve the relationship (404), check the parent (404), write per
association kind, then answer 200 with the re-read linkage (the parent is
reloaded for belongs-to). -/
def UpdateRelationship (reg : Registry) (baseUrl : String) (db : DB)
    (m : Model) (rid : Int) (rel : String) (body : Option BodyData) :
    HandlerResult × DB :=
  match body with
  | none =>
    (sendJsonApiError 400 "Invalid Request"
      (some "Request body must contain a \"data\" member")
      (some (.pointer "/data")), db)
  | some d =>
    match findAssociationByRelationshipName m rel with
    | none =>
      (sendJsonApiError 404 "Relationship Not Found"
        (some ("Relationship '" ++ rel ++ "' not found on " ++ m.name)) none,
        db)
    | some assoc =>
      match findRowByPk db m rid with
      | none =>
        (sendJsonApiError 404 "Resource Not Found"
          (some (m.name ++ " with id " ++ toString rid ++ " not found")) none,
          db)
      | some _parentRow =>
        match updateRelationshipWrite db m rid assoc.1 assoc.2 d with
        | .inl err => (err, db)
        | .inr db1 =>
          let reloaded := (findRowByPk db1 m rid).getD []
          (.json 200
            { data := some (primaryOfRelData
                (readRelationshipData reg db1 assoc.1 assoc.2 rid reloaded)),
              links := some (relationshipEndpointLinks baseUrl m rid rel),
              jsonapi := some "1.1" }, db1)

/-- `jsonapi.GetRelated(model)`: an unresolved relationship name falls
through to the next middleware; otherwise check the parent (404) and answer
200 with the related resource object(s) (null when a to-one points nowhere),
loading the target's to-many and has-one associations one level deep. -/
def GetRelated (reg : Registry) (baseUrl : String) (db : DB) (m : Model)
    (rid : Int) (rel : String) : HandlerResult × DB :=
  match findAssociationByRelationshipName m rel with
  | none => (.toNext, db)
  | some assoc =>
    match findRowByPk db m rid with
    | none =>
      (sendJsonApiError 404 "Resource Not Found"
        (some (m.name ++ " with id " ++ toString rid ++ " not found")) none,
        db)
    | some parentRow =>
      let targetModel := lookupModel reg assoc.1.target
      let targetAD := getAssociationDataForModel targetModel
      let loadTarget := fun (r : Row) =>
        loadRow db reg targetModel r targetAD.hasManyAssociations
          targetAD.hasOneAssociations []
      let links : Links :=
        { self := buildResourceUrl baseUrl m.name (some (toString rid)) ++
            "/" ++ rel }
      match assoc.2 with
      | .HasMany =>
        let relatedRows := (findAllRows db assoc.1.target).filter
          (fkMatches assoc.1 rid)
        let dataList := relatedRows.filterMap (fun r =>
          (buildResourceObjectForInstance buildFuel reg (loadTarget r)
            targetModel false (some baseUrl)).map Prod.fst)
        (.json 200
          { data := some (.list dataList), links := some links,
            jsonapi := some "1.1" }, db)
      | .HasOne =>
        let related := ((findAllRows db assoc.1.target).find?
          (fkMatches assoc.1 rid)).bind (fun r =>
            (buildResourceObjectForInstance buildFuel reg (loadTarget r)
              targetModel false (some baseUrl)).map Prod.fst)
        (.json 200
          { data := some (match related with
              | some ro => .single ro
              | none => .nullP),
            links := some links, jsonapi := some "1.1" }, db)
      | .BelongsTo =>
        let related :=
          (match lookupF parentRow assoc.1.foreignKey with
            | some fkv =>
              if jsTruthyVal fkv then findTargetByPkVal db reg assoc.1 fkv
              else none
            | none => none).bind (fun r =>
              (buildResourceObjectForInstance buildFuel reg (loadTarget r)
                targetModel false (some baseUrl)).map Prod.fst)
        (.json 200
          { data := some (match related with
              | some ro => .single ro
              | none => .nullP),
            links := some links, jsonapi := some "1.1" }, db)

/-- One request to any of the eight registered operations. -/
inductive Operation where
  | create : Option CreateBody → Operation
  | getSingle : Int → Option String → Operation
  | getList : GLQuery → Operation
  | update : Int → Option CreateBody → Operation
  | delete : Int → Operation
  | getRelationship : Int → String → Operation
  | updateRelationship : Int → String → Option BodyData → Operation
  | getRelated : Int → String → Operation

/-- Dispatch of one request to its handler. -/
def handle (reg : Registry) (baseUrl : String) (db : DB) (m : Model) :
    Operation → HandlerResult × DB
  | .create body => Create reg baseUrl db m body
  | .getSingle rid simpleQ => GetSingle reg baseUrl db m rid simpleQ
  | .getList q => GetList reg baseUrl db m q
  | .update rid body => Update reg baseUrl db m rid body
  | .delete rid => Delete db m rid
  | .getRelationship rid rel => GetRelationship reg baseUrl db m rid rel
  | .updateRelationship rid rel body =>
    UpdateRelationship reg baseUrl db m rid rel body
  | .getRelated rid rel => GetRelated reg baseUrl db m rid rel

/-! ## C9: the compound-document deduplication function -/

/-- Spec-side loop: deduplication keyed by the `(type, id)` pair itself
("Deduplicates by `(type, id)` composite key, preserving first-seen
order"). -/
def dedupByPairGo (seen : List (String × String)) :
    List ResourceObject → List ResourceObject
  | [] => []
  | r :: rs =>
    if (r.type, r.id) ∈ seen then dedupByPairGo seen rs
    else r :: dedupByPairGo ((r.type, r.id) :: seen) rs

/-- Spec-side deduplication by `(type, id)` pair, first occurrence kept. -/
def dedupByPair (l : List ResourceObject) : List ResourceObject :=
  dedupByPairGo [] l

/-- No two list entries with distinct `(type, id)` pairs collide on the
concatenated `type:id` key string (true whenever types are colon-free). -/
def dedupKeyInjective (l : List ResourceObject) : Prop :=
  ∀ r1 ∈ l, ∀ r2 ∈ l, dedupKey r1 = dedupKey r2 →
    r1.type = r2.type ∧ r1.id = r2.id

instance (l : List ResourceObject) : Decidable (dedupKeyInjective l) := by
  unfold dedupKeyInjective
  infer_instance

/-- No two list entries share the `(type, id)` pair. -/
def pairsNodup (l : List ResourceObject) : Prop :=
  (l.map (fun r => (r.type, r.id))).Nodup

instance (l : List ResourceObject) : Decidable (pairsNodup l) := by
  unfold pairsNodup
  infer_instance

/-- The claim C9 as stated: pair-keyed first-seen deduplication, identity on
pair-deduplicated lists, and idempotence, for any list of resource
objects. -/
def C9Statement : Prop :=
  ∀ l : List ResourceObject,
    deduplicateIncluded l = dedupByPair l ∧
    (pairsNodup l → deduplicateIncluded l = l) ∧
    deduplicateIncluded (deduplicateIncluded l) = deduplicateIncluded l

theorem dedupGo_sublist (l : List ResourceObject) :
    ∀ seen, List.Sublist (dedupGo seen l) l := by
  induction l with
  | nil => intro seen; simp [dedupGo]
  | cons r rs ih =>
    intro seen
    simp only [dedupGo]
    split
    · exact (ih seen).trans (List.sublist_cons_self r rs)
    · exact List.Sublist.cons₂ r (ih (dedupKey r :: seen))

theorem dedupGo_idem (l : List ResourceObject) :
    ∀ seen, dedupGo seen (dedupGo seen l) = dedupGo seen l := by
  induction l with
  | nil => intro seen; simp [dedupGo]
  | cons r rs ih =>
    intro seen
    simp only [dedupGo]
    split
    · exact ih seen
    · simp only [dedupGo]
      split
      · simp_all
      · rw [ih (dedupKey r :: seen)]

theorem dedupGo_eq_byPair (l : List ResourceObject) :
    ∀ (seen : List String) (seenP : List (String × String)),
      dedupKeyInjective l →
      (∀ r ∈ l, dedupKey r ∈ seen ↔ (r.type, r.id) ∈ seenP) →
      dedupGo seen l = dedupByPairGo seenP l := by
  induction l with
  | nil => intro seen seenP _ _; simp [dedupGo, dedupByPairGo]
  | cons r rs ih =>
    intro seen seenP hinj hmem
    have hinj' : dedupKeyInjective rs := fun r1 h1 r2 h2 =>
      hinj r1 (List.mem_cons_of_mem r h1) r2 (List.mem_cons_of_mem r h2)
    simp only [dedupGo, dedupByPairGo]
    have hr := hmem r (List.mem_cons_self r rs)
    by_cases hk : dedupKey r ∈ seen
    · rw [if_pos hk, if_pos (hr.mp hk)]
      exact ih seen seenP hinj'
        (fun x hx => hmem x (List.mem_cons_of_mem r hx))
    · rw [if_neg hk, if_neg (fun hp => hk (hr.mpr hp))]
      congr 1
      refine ih (dedupKey r :: seen) ((r.type, r.id) :: seenP) hinj' ?_
      intro x hx
      constructor
      · intro hxk
        rcases List.mem_cons.mp hxk with heq | hin
        · have := hinj x (List.mem_cons_of_mem r hx) r
            (List.mem_cons_self r rs) heq
          exact List.mem_cons.mpr (Or.inl (Prod.ext this.1 this.2))
        · exact List.mem_cons.mpr
            (Or.inr ((hmem x (List.mem_cons_of_mem r hx)).mp hin))
      · intro hxp
        rcases List.mem_cons.mp hxp with heq | hin
        · have h1 : x.type = r.type := congrArg Prod.fst heq
          have h2 : x.id = r.id := congrArg Prod.snd heq
          exact List.mem_cons.mpr (Or.inl (by simp [dedupKey, h1, h2]))
        · exact List.mem_cons.mpr
            (Or.inr ((hmem x (List.mem_cons_of_mem r hx)).mpr hin))

theorem dedupByPairGo_eq_self (l : List ResourceObject) (h : pairsNodup l) :
    ∀ seenP, (∀ r ∈ l, (r.type, r.id) ∉ seenP) →
      dedupByPairGo seenP l = l := by
  induction l with
  | nil => intro seenP _; simp [dedupByPairGo]
  | cons r rs ih =>
    intro seenP hno
    simp only [dedupByPairGo, if_neg (hno r (List.mem_cons_self r rs))]
    congr 1
    have hnd : pairsNodup rs := (List.nodup_cons.mp h).2
    refine ih hnd ((r.type, r.id) :: seenP) ?_
    intro x hx hmem
    rcases List.mem_cons.mp hmem with heq | hin
    · refine (List.nodup_cons.mp h).1 ?_
      have : (x.type, x.id) ∈ rs.map (fun r => (r.type, r.id)) :=
        List.mem_map_of_mem _ hx
      rwa [heq] at this
    · exact hno x (List.mem_cons_of_mem r hx) hin

/-- C9 (amended): `deduplicateIncluded` preserves first-seen order (its
output is a sublist of its input) and is idempotent on any list; it is keyed
by the concatenated `type:id` string, so whenever distinct `(type, id)`
pairs yield distinct keys (in particular for colon-free types and ids) it
keeps exactly the first-seen resource object per `(type, id)` pair and
returns an already pair-deduplicated list unchanged. -/
theorem c9_deduplicateIncluded_amended (l : List ResourceObject) :
    List.Sublist (deduplicateIncluded l) l ∧
    deduplicateIncluded (deduplicateIncluded l) = deduplicateIncluded l ∧
    (dedupKeyInjective l → deduplicateIncluded l = dedupByPair l) ∧
    (dedupKeyInjective l → pairsNodup l → deduplicateIncluded l = l) := by
  refine ⟨dedupGo_sublist l [], dedupGo_idem l [], ?_, ?_⟩
  · intro hinj
    exact dedupGo_eq_byPair l [] [] hinj (by simp)
  · intro hinj hnd
    have h1 : deduplicateIncluded l = dedupByPair l :=
      dedupGo_eq_byPair l [] [] hinj (by simp)
    rw [h1]
    exact dedupByPairGo_eq_self l hnd [] (by simp)

/-- A colon-free resource object for concrete checks. -/
def roPlainA : ResourceObject := { id := "1", type := "A", attributes := [] }

/-- A second colon-free resource object. -/
def roPlainB : ResourceObject := { id := "2", type := "A", attributes := [] }

/-- Witness for C9 (amended): a pair-deduplicated colon-free list is
returned unchanged, and the output on a list with a duplicate is a sublist
of the input. -/
theorem c9_deduplicateIncluded_amended_witness :
    deduplicateIncluded [roPlainA, roPlainB] = [roPlainA, roPlainB] ∧
    List.Sublist (deduplicateIncluded [roPlainA, roPlainB, roPlainA])
      [roPlainA, roPlainB, roPlainA] :=
  ⟨(c9_deduplicateIncluded_amended [roPlainA, roPlainB]).2.2.2
      (by decide) (by decide),
    (c9_deduplicateIncluded_amended [roPlainA, roPlainB, roPlainA]).1⟩

/-- A resource object whose type contains a colon. -/
def roColon1 : ResourceObject := { id := "C", type := "A:B", attributes := [] }

/-- A resource object colliding with `roColon1` on the `type:id` key while
differing in the `(type, id)` pair. -/
def roColon2 : ResourceObject := { id := "B:C", type := "A", attributes := [] }

/-- Counterexample to C9 as stated: the key template `type:id` conflates the
distinct pairs `("A:B", "C")` and `("A", "B:C")`, so a list with no two
entries sharing a `(type, id)` pair is not returned unchanged — the second
entry is dropped. -/
theorem c9_counterexample : ¬ C9Statement := by
  intro h
  have h2 := (h [roColon1, roColon2]).2.1 (by decide)
  have hlen := congrArg List.length h2
  have hl1 : (deduplicateIncluded [roColon1, roColon2]).length = 1 := by
    decide
  rw [hl1] at hlen
  simp at hlen

/-! ## C5: content-type validation -/

theorem takeWhile_append_of_all {α : Type} (p : α → Bool) (l₁ l₂ : List α)
    (h : ∀ a ∈ l₁, p a = true) :
    (l₁ ++ l₂).takeWhile p = l₁ ++ l₂.takeWhile p := by
  induction l₁ with
  | nil => simp
  | cons a as ih =>
    have ha := h a (List.mem_cons_self a as)
    have hrest : ∀ x ∈ as, p x = true := fun x hx =>
      h x (List.mem_cons_of_mem a hx)
    simp [List.takeWhile_cons, ha, ih hrest]

theorem isPrefixOf_iff_append :
    ∀ (l₁ l₂ : List Char), l₁.isPrefixOf l₂ = true ↔ ∃ t, l₂ = l₁ ++ t
  | [], l₂ => by simp [List.isPrefixOf]
  | _ :: _, [] => by simp [List.isPrefixOf]
  | a :: as, b :: bs => by
    simp only [List.isPrefixOf, Bool.and_eq_true, beq_iff_eq,
      isPrefixOf_iff_append as bs, List.cons_append, List.cons.injEq]
    constructor
    · rintro ⟨rfl, t, rfl⟩
      exact ⟨t, rfl, rfl⟩
    · rintro ⟨t, rfl, rfl⟩
      exact ⟨rfl, t, rfl⟩

/-- Spec-side reading of "base type": the prefix of the header value before
the first `;` or space (media-type parameters follow there). -/
def specBaseType (ct : String) : String :=
  String.mk (ct.data.takeWhile (fun c => c ≠ ';' ∧ c ≠ ' '))

theorem specBaseType_of_param (r : String) :
    specBaseType (JSONAPI_CONTENT_TYPE ++ ";" ++ r) = JSONAPI_CONTENT_TYPE := by
  have hall : ∀ c ∈ JSONAPI_CONTENT_TYPE.data,
      (decide (c ≠ ';' ∧ c ≠ ' ')) = true := by decide
  apply String.ext
  unfold specBaseType
  rw [String.data_append, String.data_append,
    List.append_assoc, takeWhile_append_of_all _ _ _ hall]
  simp [show (";" : String).data = [';'] from rfl, List.takeWhile_cons]

theorem jsStartsWith_false_of_baseType (ct : String)
    (h : specBaseType ct ≠ JSONAPI_CONTENT_TYPE) :
    ct ≠ JSONAPI_CONTENT_TYPE ∧
    jsStartsWith ct (JSONAPI_CONTENT_TYPE ++ ";") = false ∧
    jsStartsWith ct (JSONAPI_CONTENT_TYPE ++ " ") = false := by
  have hall : ∀ c ∈ JSONAPI_CONTENT_TYPE.data,
      (decide (c ≠ ';' ∧ c ≠ ' ')) = true := by decide
  refine ⟨?_, ?_, ?_⟩
  · rintro rfl
    exact h (by decide)
  · by_contra hb
    have hb' : jsStartsWith ct (JSONAPI_CONTENT_TYPE ++ ";") = true := by
      revert hb
      cases jsStartsWith ct (JSONAPI_CONTENT_TYPE ++ ";") <;> simp
    obtain ⟨t, ht⟩ := (isPrefixOf_iff_append _ _).mp hb'
    apply h
    apply String.ext
    unfold specBaseType
    rw [ht, String.data_append, List.append_assoc,
      takeWhile_append_of_all _ _ _ hall]
    simp [show (";" : String).data = [';'] from rfl, List.takeWhile_cons]
  · by_contra hb
    have hb' : jsStartsWith ct (JSONAPI_CONTENT_TYPE ++ " ") = true := by
      revert hb
      cases jsStartsWith ct (JSONAPI_CONTENT_TYPE ++ " ") <;> simp
    obtain ⟨t, ht⟩ := (isPrefixOf_iff_append _ _).mp hb'
    apply h
    apply String.ext
    unfold specBaseType
    rw [ht, String.data_append, List.append_assoc,
      takeWhile_append_of_all _ _ _ hall]
    simp [show (" " : String).data = [' '] from rfl, List.takeWhile_cons]

/-- C5: on POST and PATCH, a missing Content-Type header yields the 400
"Missing Content-Type" error; a header whose base type is not
`application/vnd.api+json` yields the generic 415 "Unsupported Media Type"
error; and the correct base type followed by a media-type parameter yields
415 with the distinguishing no-parameters detail message. -/
theorem c5_validateContentType (method : String)
    (hm : method = "POST" ∨ method = "PATCH") :
    (validateContentType method none =
      .handled (sendJsonApiError 400 "Missing Content-Type"
        (some "Content-Type header is required for requests with a body")
        none)) ∧
    (∀ ct : String, specBaseType ct ≠ JSONAPI_CONTENT_TYPE →
      validateContentType method (some ct) =
        .handled (sendJsonApiError 415 "Unsupported Media Type"
          (some ("Content-Type must be " ++ JSONAPI_CONTENT_TYPE))
          (some (.header "Content-Type")))) ∧
    (∀ rest : String,
      validateContentType method
          (some (JSONAPI_CONTENT_TYPE ++ ";" ++ rest)) =
        .handled (sendJsonApiError 415 "Unsupported Media Type"
          (some "Content-Type header must be application/vnd.api+json without media type parameters")
          none)) := by
  refine ⟨?_, ?_, ?_⟩
  · unfold validateContentType
    rw [if_pos hm]
  · intro ct hbt
    obtain ⟨hne, hs1, hs2⟩ := jsStartsWith_false_of_baseType ct hbt
    unfold validateContentType
    rw [if_pos hm]
    simp only [if_neg hne, hs1, hs2]
    simp
  · intro rest
    have hne : JSONAPI_CONTENT_TYPE ++ ";" ++ rest ≠ JSONAPI_CONTENT_TYPE := by
      intro he
      have := congrArg String.data he
      rw [String.data_append, String.data_append, List.append_assoc] at this
      have h2 := List.append_cancel_left
        (this.trans (List.append_nil _).symm)
      simp at h2
    have hsw : jsStartsWith (JSONAPI_CONTENT_TYPE ++ ";" ++ rest)
        (JSONAPI_CONTENT_TYPE ++ ";") = true := by
      apply (isPrefixOf_iff_append _ _).mpr
      exact ⟨rest.data, by rw [String.data_append]⟩
    unfold validateContentType
    rw [if_pos hm]
    simp only [if_neg hne]
    rw [if_pos (Or.inl hsw)]

/-- Witness for C5: the three error shapes at concrete requests — a POST
with no header, a POST with `application/json`, and a PATCH with
`application/vnd.api+json;charset=utf-8`. -/
theorem c5_validateContentType_witness :
    (validateContentType "POST" none =
      .handled (sendJsonApiError 400 "Missing Content-Type"
        (some "Content-Type header is required for requests with a body")
        none)) ∧
    (validateContentType "POST" (some "application/json") =
      .handled (sendJsonApiError 415 "Unsupported Media Type"
        (some ("Content-Type must be " ++ JSONAPI_CONTENT_TYPE))
        (some (.header "Content-Type")))) ∧
    (validateContentType "PATCH"
        (some (JSONAPI_CONTENT_TYPE ++ ";" ++ "charset=utf-8")) =
      .handled (sendJsonApiError 415 "Unsupported Media Type"
        (some "Content-Type header must be application/vnd.api+json without media type parameters")
        none)) :=
  ⟨(c5_validateContentType "POST" (Or.inl rfl)).1,
    (c5_validateContentType "POST" (Or.inl rfl)).2.1 "application/json"
      (by decide),
    (c5_validateContentType "PATCH" (Or.inr rfl)).2.2 "charset=utf-8"⟩

/-! ## C6: relationship-name derivation and resolution -/

/-- The attribute keys one association contributes to the exclusion set. -/
def exKeysOf (a : Association) : List String :=
  match a.associationType with
  | .HasMany => [a.as]
  | .HasOne => [a.as]
  | .BelongsTo => [a.foreignKey, a.as]

/-- The exclusion keys of a whole association list, in order. -/
def exKeysList : List Association → List String
  | [] => []
  | a :: rest => exKeysOf a ++ exKeysList rest

theorem assocFold_spec (l : List Association) :
    ∀ ad : AssociationData,
      l.foldl assocStep ad =
        ⟨ad.hasManyAssociations ++
            l.filter (fun a => a.associationType = .HasMany),
          ad.hasOneAssociations ++
            l.filter (fun a => a.associationType = .HasOne),
          ad.belongsToAssociations ++
            l.filter (fun a => a.associationType = .BelongsTo),
          ad.excludedKeys ++ exKeysList l⟩ := by
  induction l with
  | nil => intro ad; simp [exKeysList]
  | cons a rest ih =>
    intro ad
    rw [List.foldl_cons, ih (assocStep ad a)]
    cases h : a.associationType <;>
      simp [assocStep, h, exKeysOf, exKeysList, List.filter_cons]

theorem getAssociationData_eq (m : Model) :
    getAssociationDataForModel m =
      ⟨m.associations.filter (fun a => a.associationType = .HasMany),
        m.associations.filter (fun a => a.associationType = .HasOne),
        m.associations.filter (fun a => a.associationType = .BelongsTo),
        exKeysList m.associations⟩ := by
  unfold getAssociationDataForModel
  rw [assocFold_spec]
  rfl

theorem find?_eq_some_of_unique {α : Type} (p : α → Bool) (l : List α)
    (a : α) (ha : a ∈ l) (hpa : p a = true)
    (huniq : ∀ x ∈ l, p x = true → x = a) :
    l.find? p = some a := by
  induction l with
  | nil => cases ha
  | cons b bs ih =>
    cases hpb : p b
    · have hab : a ∈ bs := by
        rcases List.mem_cons.mp ha with rfl | h
        · rw [hpa] at hpb; cases hpb
        · exact h
      simp only [List.find?, hpb]
      exact ih hab (fun x hx hpx => huniq x (List.mem_cons_of_mem b hx) hpx)
    · have hba := huniq b (List.mem_cons_self b bs) hpb
      subst hba
      simp only [List.find?, hpb]

/-- The document relationship name derived from an association — the exact
name the resource-object builder exposes it under: to-many uses the alias
with its first letter lower-cased, has-one the alias followed by `Id`,
belongs-to the foreign key name. -/
def derivedRelationshipName (a : Association) : String :=
  match a.associationType with
  | .HasMany => lowerFirst a.as
  | .HasOne => a.as ++ "Id"
  | .BelongsTo => a.foreignKey

/-- The claim C6 as stated: on every model, resolving the derived name of
any declared association returns exactly that association with its kind. -/
def C6Statement : Prop :=
  ∀ m : Model, ∀ a ∈ m.associations,
    findAssociationByRelationshipName m (derivedRelationshipName a) =
      some (a, a.associationType)

/-- Pairwise injectivity of the derived relationship names on a model's
association set. -/
def derivedNamesInjective (m : Model) : Prop :=
  ∀ a ∈ m.associations, ∀ b ∈ m.associations,
    derivedRelationshipName a = derivedRelationshipName b → a = b

instance (m : Model) : Decidable (derivedNamesInjective m) := by
  unfold derivedNamesInjective
  infer_instance

/-- C6 (amended): provided the derived relationship names of a model's
associations are pairwise distinct, resolving the derived name of any
declared association returns exactly that association with its kind (the
derivation composed with the lookup is the identity).  Alias uniqueness
alone does not suffice (see the counterexample). -/
theorem c6_derivedName_resolution (m : Model)
    (hinj : derivedNamesInjective m) :
    ∀ a ∈ m.associations,
      findAssociationByRelationshipName m (derivedRelationshipName a) =
        some (a, a.associationType) := by
  intro a ha
  unfold findAssociationByRelationshipName
  rw [getAssociationData_eq]
  cases hty : a.associationType
  case HasMany =>
    have hfind : (m.associations.filter
        (fun x => x.associationType = .HasMany)).find?
        (fun assoc => lowerFirst assoc.as = derivedRelationshipName a) =
        some a := by
      apply find?_eq_some_of_unique _ _ a
      · exact List.mem_filter.mpr ⟨ha, by simp [hty]⟩
      · simp [derivedRelationshipName, hty]
      · intro x hx hpx
        have hx' := List.mem_filter.mp hx
        have hxty : x.associationType = .HasMany := by
          have := hx'.2
          simpa using this
        apply hinj x hx'.1 a ha
        simp only [derivedRelationshipName, hxty]
        simpa using hpx
    simp only [hfind, hty]
  case HasOne =>
    have hnone : (m.associations.filter
        (fun x => x.associationType = .HasMany)).find?
        (fun assoc => lowerFirst assoc.as = derivedRelationshipName a) =
        none := by
      rw [List.find?_eq_none]
      intro x hx hpx
      have hx' := List.mem_filter.mp hx
      have hxty : x.associationType = .HasMany := by simpa using hx'.2
      have hda : derivedRelationshipName x = derivedRelationshipName a := by
        simp only [derivedRelationshipName, hxty]
        simpa using hpx
      have := hinj x hx'.1 a ha hda
      rw [this, hty] at hxty
      cases hxty
    have hfind : (m.associations.filter
        (fun x => x.associationType = .HasOne)).find?
        (fun assoc => assoc.as ++ "Id" = derivedRelationshipName a) =
        some a := by
      apply find?_eq_some_of_unique _ _ a
      · exact List.mem_filter.mpr ⟨ha, by simp [hty]⟩
      · simp [derivedRelationshipName, hty]
      · intro x hx hpx
        have hx' := List.mem_filter.mp hx
        have hxty : x.associationType = .HasOne := by simpa using hx'.2
        apply hinj x hx'.1 a ha
        simp only [derivedRelationshipName, hxty]
        simpa using hpx
    simp only [hnone, hfind, hty]
  case BelongsTo =>
    have hnoneHM : (m.associations.filter
        (fun x => x.associationType = .HasMany)).find?
        (fun assoc => lowerFirst assoc.as = derivedRelationshipName a) =
        none := by
      rw [List.find?_eq_none]
      intro x hx hpx
      have hx' := List.mem_filter.mp hx
      have hxty : x.associationType = .HasMany := by simpa using hx'.2
      have hda : derivedRelationshipName x = derivedRelationshipName a := by
        simp only [derivedRelationshipName, hxty]
        simpa using hpx
      have := hinj x hx'.1 a ha hda
      rw [this, hty] at hxty
      cases hxty
    have hnoneHO : (m.associations.filter
        (fun x => x.associationType = .HasOne)).find?
        (fun assoc => assoc.as ++ "Id" = derivedRelationshipName a) =
        none := by
      rw [List.find?_eq_none]
      intro x hx hpx
      have hx' := List.mem_filter.mp hx
      have hxty : x.associationType = .HasOne := by simpa using hx'.2
      have hda : derivedRelationshipName x = derivedRelationshipName a := by
        simp only [derivedRelationshipName, hxty]
        simpa using hpx
      have := hinj x hx'.1 a ha hda
      rw [this, hty] at hxty
      cases hxty
    have hfind : (m.associations.filter
        (fun x => x.associationType = .BelongsTo)).find?
        (fun assoc => assoc.foreignKey = derivedRelationshipName a) =
        some a := by
      apply find?_eq_some_of_unique _ _ a
      · exact List.mem_filter.mpr ⟨ha, by simp [hty]⟩
      · simp [derivedRelationshipName, hty]
      · intro x hx hpx
        have hx' := List.mem_filter.mp hx
        have hxty : x.associationType = .BelongsTo := by simpa using hx'.2
        apply hinj x hx'.1 a ha
        simp only [derivedRelationshipName, hxty]
        simpa using hpx
    simp only [hnoneHM, hnoneHO, hfind, hty]

/-- A to-many association used by concrete checks. -/
def aPostsHM : Association :=
  { associationType := .HasMany, target := "P", as := "Posts", foreignKey := "userId" }

/-- A has-one association used by concrete checks. -/
def aProfileHO : Association :=
  { associationType := .HasOne, target := "Pr", as := "Profile", foreignKey := "ownerId" }

/-- A belongs-to association used by concrete checks. -/
def aTeamBT : Association :=
  { associationType := .BelongsTo, target := "T", as := "Team", foreignKey := "teamId" }

/-- A model with one association of each kind and pairwise distinct derived
relationship names. -/
def mThreeKinds : Model :=
  { name := "U", primaryKeyAttribute := "id",
    associations := [aPostsHM, aProfileHO, aTeamBT],
    rawAttributes := [], validate := fun _ => [] }

/-- Witness for C6 (amended): on `mThreeKinds` each of the three derived
names resolves back to its own association and kind. -/
theorem c6_derivedName_resolution_witness :
    findAssociationByRelationshipName mThreeKinds "posts" =
      some (aPostsHM, .HasMany) ∧
    findAssociationByRelationshipName mThreeKinds "ProfileId" =
      some (aProfileHO, .HasOne) ∧
    findAssociationByRelationshipName mThreeKinds "teamId" =
      some (aTeamBT, .BelongsTo) :=
  by
  have h1 := c6_derivedName_resolution mThreeKinds (by decide) aPostsHM
    (by decide)
  have h2 := c6_derivedName_resolution mThreeKinds (by decide) aProfileHO
    (by decide)
  have h3 := c6_derivedName_resolution mThreeKinds (by decide) aTeamBT
    (by decide)
  have e1 : derivedRelationshipName aPostsHM = "posts" := by decide
  have e2 : derivedRelationshipName aProfileHO = "ProfileId" := by decide
  have e3 : derivedRelationshipName aTeamBT = "teamId" := by decide
  rw [e1] at h1
  rw [e2] at h2
  rw [e3] at h3
  exact ⟨h1, h2, h3⟩

/-- A has-one association aliased `user`, deriving the name `userId`. -/
def aUserHO : Association :=
  { associationType := .HasOne, target := "U", as := "user", foreignKey := "xId" }

/-- A belongs-to association with foreign key `userId` and alias `author`. -/
def aAuthorBT : Association :=
  { associationType := .BelongsTo, target := "U", as := "author", foreignKey := "userId" }

/-- A model whose aliases are unique but whose derived names collide: the
has-one alias `user` derives `userId`, which is also the belongs-to foreign
key name. -/
def mCollide : Model :=
  { name := "X", primaryKeyAttribute := "id",
    associations := [aUserHO, aAuthorBT],
    rawAttributes := [], validate := fun _ => [] }

/-- Counterexample to C6 as stated: on `mCollide` the belongs-to
association's derived name `userId` resolves to the has-one association
(the has-one list is searched first), not to the belongs-to association
itself — even though aliases are unique. -/
theorem c6_counterexample : ¬ C6Statement := by
  intro h
  have := h mCollide aAuthorBT (by decide)
  exact absurd this (by decide)

/-! ## C7: the filter translator -/

theorem setOpEntry_append (l : List (FilterOp × OpVal)) (o : FilterOp)
    (e : OpVal) (h : ∀ p ∈ l, p.1 ≠ o) : setOpEntry l o e = l ++ [(o, e)] := by
  unfold setOpEntry
  have hf : l.find? (fun p => p.1 = o) = none :=
    List.find?_eq_none.mpr (fun x hx => by simpa using h x hx)
  rw [hf]
  simp

theorem translateFold_recognized (ctx : List (String × FVal)) (d : Bool) :
    ∀ (pairs : List (String × FVal)) (l : List (FilterOp × OpVal)),
      (∀ kv ∈ pairs, (operatorMap kv.1).isSome) →
      List.Pairwise (fun a b => operatorMap a.1 ≠ operatorMap b.1) pairs →
      (∀ kv ∈ pairs, ∀ p ∈ l, operatorMap kv.1 ≠ some p.1) →
      pairs.foldl (translateStep ctx d) (.ops l) =
        .ops (l ++ pairs.filterMap (fun kv => (operatorMap kv.1).map
          (fun o => (o, opEntryFor d o kv.2)))) := by
  intro pairs
  induction pairs with
  | nil => intro l _ _ _; simp
  | cons kv rest ih =>
    intro l hrec hpw hdisj
    obtain ⟨o, ho⟩ := Option.isSome_iff_exists.mp
      (hrec kv (List.mem_cons_self kv rest))
    have hne : ∀ p ∈ l, p.1 ≠ o := by
      intro p hp he
      exact hdisj kv (List.mem_cons_self kv rest) p hp (by rw [ho, he])
    have hstep : translateStep ctx d (.ops l) kv =
        .ops (l ++ [(o, opEntryFor d o kv.2)]) := by
      unfold translateStep
      rw [ho]
      simp only []
      rw [setOpEntry_append l o _ hne]
    rw [List.foldl_cons, hstep]
    rw [ih (l ++ [(o, opEntryFor d o kv.2)])
      (fun x hx => hrec x (List.mem_cons_of_mem kv hx))
      (List.Pairwise.sublist (List.sublist_cons_self kv rest) hpw)
      ?_]
    · rw [List.filterMap_cons, ho]
      simp [List.append_assoc]
    · intro x hx p hp
      rcases List.mem_append.mp hp with h1 | h2
      · exact hdisj x (List.mem_cons_of_mem kv hx) p h1
      · have hp1 : p.1 = o := by
          rcases List.mem_singleton.mp h2 with rfl
          rfl
        rw [hp1, ← ho]
        exact ((List.pairwise_cons.mp hpw).1 x hx).symm

theorem translateFold_ops_shape (ctx : List (String × FVal)) (d : Bool) :
    ∀ (pairs : List (String × FVal)) (l : List (FilterOp × OpVal)),
      (∀ kv ∈ pairs, (operatorMap kv.1).isSome) →
      ∃ l', pairs.foldl (translateStep ctx d) (.ops l) = .ops l' := by
  intro pairs
  induction pairs with
  | nil => intro l _; exact ⟨l, rfl⟩
  | cons kv rest ih =>
    intro l hrec
    obtain ⟨o, ho⟩ := Option.isSome_iff_exists.mp
      (hrec kv (List.mem_cons_self kv rest))
    have hstep : translateStep ctx d (.ops l) kv =
        .ops (setOpEntry l o (opEntryFor d o kv.2)) := by
      unfold translateStep
      rw [ho]
    rw [List.foldl_cons, hstep]
    exact ih _ (fun x hx => hrec x (List.mem_cons_of_mem kv hx))

theorem translateFold_unknown_keeps (ctx : List (String × FVal)) (d : Bool) :
    ∀ (pairs : List (String × FVal)) (p : List (String × FVal))
      (e : List (FilterOp × OpVal)),
      (∀ kv ∈ pairs, operatorMap kv.1 = none) →
      pairs.foldl (translateStep ctx d) (.litObj p e) = .litObj p e := by
  intro pairs
  induction pairs with
  | nil => intro p e _; rfl
  | cons kv rest ih =>
    intro p e hunk
    have hstep : translateStep ctx d (.litObj p e) kv = .litObj p e := by
      unfold translateStep
      rw [hunk kv (List.mem_cons_self kv rest)]
    rw [List.foldl_cons, hstep]
    exact ih p e (fun x hx => hunk x (List.mem_cons_of_mem kv hx))

/-- The claim C7's fallback bullet as stated: any value object containing an
unrecognized operator key is translated to the whole value object as a
literal equality target. -/
def C7FallbackStatement : Prop :=
  ∀ (m : Model) (f : String) (pairs : List (String × FVal)),
    (∃ kv ∈ pairs, operatorMap kv.1 = none) →
    parseFilterParameters [(f, .obj pairs)] m = [(f, .litObj pairs [])]

/-- C7 (amended): scalar filters convert date-typed values and pass others
through; `convertUnixToDate` turns numbers and numeric strings into
epoch-millisecond dates and passes null, the empty string and non-numeric
strings through unconverted; an operator object whose keys are all
recognized (and name distinct operators) translates each key to its
comparison, splitting a comma-separated `in` string into a list; and an
object containing an unrecognized key falls back to the whole value object
as the equality target provided no recognized key follows the first
unrecognized one (recognized keys occurring after it would additionally
attach their comparisons to that object). -/
theorem c7_parseFilterParameters_amended :
    (∀ (m : Model) (f : String) (v : FVal),
      parseFilterParameters [(f, .scalar v)] m =
        [(f, .lit (if isDateField m f then convertUnixToDate v
          else qvalOfF v))]) ∧
    (∀ n : Int, convertUnixToDate (.fnum n) = .qdate n) ∧
    (∀ (s : String) (t : Int), parseNum s = some t → s ≠ "" →
      convertUnixToDate (.fstr s) = .qdate t) ∧
    (∀ s : String, parseNum s = none → convertUnixToDate (.fstr s) = .qstr s) ∧
    (convertUnixToDate (.fstr "") = .qstr "") ∧
    (convertUnixToDate .fnull = .qnull) ∧
    (∀ (m : Model) (f : String) (pairs : List (String × FVal)),
      (∀ kv ∈ pairs, (operatorMap kv.1).isSome) →
      List.Pairwise (fun a b => operatorMap a.1 ≠ operatorMap b.1) pairs →
      parseFilterParameters [(f, .obj pairs)] m =
        [(f, .ops (pairs.filterMap (fun kv => (operatorMap kv.1).map
          (fun o => (o, opEntryFor (isDateField m f) o kv.2)))))]) ∧
    (∀ (m : Model) (f : String) (p1 : List (String × FVal)) (k0 : String)
      (v0 : FVal) (p2 : List (String × FVal)),
      operatorMap k0 = none →
      (∀ kv ∈ p1, (operatorMap kv.1).isSome) →
      (∀ kv ∈ p2, operatorMap kv.1 = none) →
      parseFilterParameters [(f, .obj (p1 ++ (k0, v0) :: p2))] m =
        [(f, .litObj (p1 ++ (k0, v0) :: p2) [])]) := by
  refine ⟨?_, ?_, ?_, ?_, ?_, ?_, ?_, ?_⟩
  · intro m f v
    rfl
  · intro n
    rfl
  · intro s t hp hne
    simp only [convertUnixToDate, if_neg hne, hp]
  · intro s hp
    by_cases hne : s = ""
    · rw [hne]
      rfl
    · simp only [convertUnixToDate, if_neg hne, hp]
  · rfl
  · rfl
  · intro m f pairs hrec hpw
    unfold parseFilterParameters
    simp only [List.map_cons, List.map_nil]
    unfold translateObj
    rw [translateFold_recognized pairs (isDateField m f) pairs [] hrec hpw
      (fun _ _ p hp => absurd hp (List.not_mem_nil p))]
    simp
  · intro m f p1 k0 v0 p2 hk0 hp1 hp2
    unfold parseFilterParameters
    simp only [List.map_cons, List.map_nil]
    unfold translateObj
    rw [List.foldl_append]
    obtain ⟨l', hl'⟩ := translateFold_ops_shape (p1 ++ (k0, v0) :: p2)
      (isDateField m f) p1 [] hp1
    rw [hl', List.foldl_cons]
    have hstep : translateStep (p1 ++ (k0, v0) :: p2) (isDateField m f)
        (.ops l') (k0, v0) = .litObj (p1 ++ (k0, v0) :: p2) [] := by
      unfold translateStep
      rw [hk0]
    rw [hstep, translateFold_unknown_keeps _ _ p2 _ _ hp2]

/-- Witness for C7 (amended): a recognized-operators object with an `in`
split, a pure unknown-key fallback, and a non-numeric date passthrough, all
at concrete inputs. -/
theorem c7_parseFilterParameters_amended_witness :
    parseFilterParameters
        [("age", .obj [("gte", .fnum 18), ("in", .fstr "1,2")])]
        (defaultModel "Z") =
      [("age", .ops [(.gte, .single (.qnum 18)),
        (.inOp, .list [.qstr "1", .qstr "2"])])] ∧
    parseFilterParameters [("x", .obj [("bogus", .fnum 7)])]
        (defaultModel "Z") =
      [("x", .litObj [("bogus", .fnum 7)] [])] ∧
    convertUnixToDate (.fstr "abc") = .qstr "abc" := by
  refine ⟨?_, ?_,
    c7_parseFilterParameters_amended.2.2.2.1 "abc" (by decide)⟩
  · have h := c7_parseFilterParameters_amended.2.2.2.2.2.2.1
      (defaultModel "Z") "age" [("gte", .fnum 18), ("in", .fstr "1,2")]
      (by decide) (by decide)
    exact h.trans (by decide)
  · have h := c7_parseFilterParameters_amended.2.2.2.2.2.2.2
      (defaultModel "Z") "x" [] "bogus" (.fnum 7) [] (by decide)
      (by decide) (by decide)
    simpa using h

/-- Counterexample to C7's fallback bullet as stated: in the object
`{bogus: 7, gt: 5}` the recognized `gt` key follows the unrecognized one, so
the translator attaches the `gt` comparison to the shared raw object instead
of yielding it as a pure literal. -/
theorem c7_counterexample : ¬ C7FallbackStatement := by
  intro h
  have := h (defaultModel "Z") "x" [("bogus", .fnum 7), ("gt", .fnum 5)]
    ⟨("bogus", .fnum 7), by decide, rfl⟩
  exact absurd this (by decide)

/-! ## C4, C8, C10: GetSingle document shapes -/

theorem getSingle_simple_run (reg : Registry) (baseUrl : String) (db : DB)
    (m : Model) (rid : Int) (sq : Option String)
    (hsq : jsTruthyStr sq = true) (r : Row)
    (hrow : findRowByPk db m rid = some r) :
    GetSingle reg baseUrl db m rid sq =
      (.json 200
        { data := some (.single (buildSimpleResourceObject
            (loadRow db reg m r [] [] [])
            (getAssociationDataForModel m).excludedKeys)),
          jsonapi := some "1.1" }, db) := by
  unfold GetSingle fetchAndBuildResourceObjectForModelById
  rw [hsq, hrow]
  simp only [if_true, buildFuel, buildResourceObjectForInstance]

theorem getSingle_nonsimple_run (reg : Registry) (baseUrl : String) (db : DB)
    (m : Model) (rid : Int) (sq : Option String)
    (hsq : jsTruthyStr sq = false) (r : Row)
    (hrow : findRowByPk db m rid = some r) :
    GetSingle reg baseUrl db m rid sq =
      (let ad := getAssociationDataForModel m
      let inst := loadRow db reg m r ad.hasManyAssociations
        ad.hasOneAssociations ad.belongsToAssociations
      .json 200
        { data := some (.single
            { buildSimpleResourceObject inst ad.excludedKeys with
              relationships := some
                ((buildHasManyRels 1 reg m inst.fields (some baseUrl)
                    ad.hasManyAssociations).1 ++
                  (buildHasOneRels 1 reg m inst.fields (some baseUrl)
                    ad.hasOneAssociations).1 ++
                  buildBelongsToRels m inst.fields (some baseUrl)
                    ad.belongsToAssociations) }),
          links := some
            { self := buildResourceUrl baseUrl m.name (some (toString rid)) },
          jsonapi := some "1.1" }, db) := by
  unfold GetSingle fetchAndBuildResourceObjectForModelById
  rw [hsq, hrow]
  simp only [Bool.false_eq_true, if_false, buildFuel,
    buildResourceObjectForInstance, buildHasManyRels, buildHasOneRels]

theorem mem_exKeysList {l : List Association} {a : Association} (ha : a ∈ l) :
    ∀ x ∈ exKeysOf a, x ∈ exKeysList l := by
  induction l with
  | nil => cases ha
  | cons b bs ih =>
    intro x hx
    simp only [exKeysList, List.mem_append]
    rcases List.mem_cons.mp ha with rfl | h
    · exact Or.inl hx
    · exact Or.inr (ih h x hx)

theorem assoc_key_mem_excluded {m : Model} {a : Association}
    (ha : a ∈ m.associations) :
    (a.associationType = .HasMany →
      a.as ∈ (getAssociationDataForModel m).excludedKeys) ∧
    (a.associationType = .HasOne →
      a.as ∈ (getAssociationDataForModel m).excludedKeys) ∧
    (a.associationType = .BelongsTo →
      a.foreignKey ∈ (getAssociationDataForModel m).excludedKeys) := by
  rw [getAssociationData_eq]
  refine ⟨fun hty => ?_, fun hty => ?_, fun hty => ?_⟩ <;>
    exact mem_exKeysList ha _ (by simp [exKeysOf, hty])

theorem buildSimple_attr_keys (inst : Inst) (ex : List String) :
    ∀ k ∈ (buildSimpleResourceObject inst ex).attributes.map Prod.fst,
      k ≠ "id" ∧ k ∉ ex := by
  intro k hk
  obtain ⟨p, hp, rfl⟩ := List.mem_map.mp hk
  have := (List.mem_filter.mp hp).2
  simpa using this

/-- The claim C4 as stated, over the embedding: every truthy `simple` GET of
an existing row yields a simple envelope (no `included`, no top-level
`links`), a resource object with no `relationships`, and attributes
excluding the model's declared primary key and every association key. -/
def C4Statement : Prop :=
  ∀ (reg : Registry) (baseUrl : String) (db : DB) (m : Model) (rid : Int)
    (sq : Option String), jsTruthyStr sq = true →
    (findRowByPk db m rid).isSome →
    ∀ st e, (GetSingle reg baseUrl db m rid sq).1 = .json st e →
      e.included = none ∧ e.links = none ∧
      ∀ ro, e.data = some (.single ro) →
        ro.relationships = none ∧
        ∀ k ∈ ro.attributes.map Prod.fst,
          k ≠ m.primaryKeyAttribute ∧
          ∀ a ∈ m.associations,
            (a.associationType = .HasMany → k ≠ a.as) ∧
            (a.associationType = .HasOne → k ≠ a.as) ∧
            (a.associationType = .BelongsTo → k ≠ a.foreignKey)

/-- C4 (amended): every truthy `simple` GET of an existing row yields an
envelope with no `included`, no top-level `links` and no `errors`, whose
resource object has no `relationships` member and whose attributes exclude
the field named `id` — the engine's assumed primary key, which coincides
with the declared one whenever that is named `id` — and every association
key (to-many alias, has-one alias, belongs-to foreign key). -/
theorem c4_simple_get_amended (reg : Registry) (baseUrl : String) (db : DB)
    (m : Model) (rid : Int) (sq : Option String)
    (hsq : jsTruthyStr sq = true) (r : Row)
    (hrow : findRowByPk db m rid = some r) :
    ∃ ro : ResourceObject,
      (GetSingle reg baseUrl db m rid sq).1 =
        .json 200 { data := some (.single ro), jsonapi := some "1.1" } ∧
      ro.relationships = none ∧
      ∀ k ∈ ro.attributes.map Prod.fst,
        k ≠ "id" ∧
        ∀ a ∈ m.associations,
          (a.associationType = .HasMany → k ≠ a.as) ∧
          (a.associationType = .HasOne → k ≠ a.as) ∧
          (a.associationType = .BelongsTo → k ≠ a.foreignKey) := by
  refine ⟨buildSimpleResourceObject (loadRow db reg m r [] [] [])
    (getAssociationDataForModel m).excludedKeys, ?_, rfl, ?_⟩
  · rw [getSingle_simple_run reg baseUrl db m rid sq hsq r hrow]
  · intro k hk
    obtain ⟨hid, hex⟩ := buildSimple_attr_keys _ _ k hk
    refine ⟨hid, ?_⟩
    intro a ha
    obtain ⟨h1, h2, h3⟩ := assoc_key_mem_excluded ha
    exact ⟨fun hty heq => hex (heq ▸ h1 hty),
      fun hty heq => hex (heq ▸ h2 hty),
      fun hty heq => hex (heq ▸ h3 hty)⟩

/-- A model with zero associations for concrete checks. -/
def mSimpleModel : Model :=
  { name := "S", primaryKeyAttribute := "id",
    associations := [], rawAttributes := [], validate := fun _ => [] }

/-- A database holding one `S` row. -/
def dbSimple : DB :=
  ⟨[("S", [[("id", .vint 1), ("value", .vstr "test")]])]⟩

/-- Witness for C4 (amended) at a concrete row: the full conjunction at the
`S` row 1 with `simple=true`. -/
theorem c4_simple_get_amended_witness :
    ∃ ro : ResourceObject,
      (GetSingle [mSimpleModel] "http://h/api" dbSimple mSimpleModel 1
        (some "true")).1 =
        .json 200 { data := some (.single ro), jsonapi := some "1.1" } ∧
      ro.relationships = none ∧
      ∀ k ∈ ro.attributes.map Prod.fst,
        k ≠ "id" ∧
        ∀ a ∈ mSimpleModel.associations,
          (a.associationType = .HasMany → k ≠ a.as) ∧
          (a.associationType = .HasOne → k ≠ a.as) ∧
          (a.associationType = .BelongsTo → k ≠ a.foreignKey) :=
  c4_simple_get_amended [mSimpleModel] "http://h/api" dbSimple mSimpleModel 1
    (some "true") (by decide) [("id", .vint 1), ("value", .vstr "test")] rfl

/-- A model whose declared primary key is not named `id`. -/
def mUuidModel : Model :=
  { name := "W", primaryKeyAttribute := "uuid",
    associations := [], rawAttributes := [], validate := fun _ => [] }

/-- A database holding one `W` row keyed by `uuid`. -/
def dbUuid : DB :=
  ⟨[("W", [[("uuid", .vint 1), ("value", .vstr "x")]])]⟩

/-- The simple GET of the `W` row, as run by the engine. -/
def c4Run : HandlerResult :=
  (GetSingle [mUuidModel] "b" dbUuid mUuidModel 1 (some "true")).1

/-- Envelope of `c4Run`. -/
def c4Env : Envelope :=
  match c4Run with
  | .json _ e => e
  | _ => {}

/-- Resource object of `c4Run`. -/
def c4Ro : ResourceObject :=
  match c4Env.data with
  | some (.single ro) => ro
  | _ => { id := "", type := "", attributes := [] }

/-- Counterexample to C4 as stated: on a model whose declared primary key is
`uuid`, the simple GET leaves the `uuid` column in `attributes` (the engine
only ever excludes the literal field name `id`), so attributes do not
exclude the primary key. -/
theorem c4_counterexample : ¬ C4Statement := by
  intro h
  have hrun : c4Run = .json 200 c4Env := rfl
  have h2 := (h [mUuidModel] "b" dbUuid mUuidModel 1 (some "true") (by decide)
    (by decide) 200 c4Env hrun).2.2 c4Ro rfl
  have h3 := (h2.2 "uuid" (by decide)).1
  exact h3 rfl

/-- C8: a non-simple GET of an existing row of a model with zero declared
associations yields a resource object whose `relationships` member is
present and equal to the empty map, inside an envelope with no `included`
member (and the usual top-level self link). -/
theorem c8_zero_assoc_relationships (reg : Registry) (baseUrl : String)
    (db : DB) (m : Model) (rid : Int) (sq : Option String)
    (hsq : jsTruthyStr sq = false) (hassoc : m.associations = [])
    (r : Row) (hrow : findRowByPk db m rid = some r) :
    ∃ ro : ResourceObject,
      (GetSingle reg baseUrl db m rid sq).1 =
        .json 200
          { data := some (.single ro),
            links := some
              { self := buildResourceUrl baseUrl m.name (some (toString rid)) },
            jsonapi := some "1.1" } ∧
      ro.relationships = some [] := by
  have had : getAssociationDataForModel m = ⟨[], [], [], []⟩ := by
    rw [getAssociationData_eq, hassoc]
    rfl
  refine ⟨{ buildSimpleResourceObject (loadRow db reg m r [] [] [])
    (getAssociationDataForModel m).excludedKeys with
      relationships := some [] }, ?_, rfl⟩
  rw [getSingle_nonsimple_run reg baseUrl db m rid sq hsq r hrow]
  simp only [had]
  rfl

/-- Witness for C8 at the concrete `S` row with no associations. -/
theorem c8_zero_assoc_relationships_witness :
    ∃ ro : ResourceObject,
      (GetSingle [mSimpleModel] "http://h/api" dbSimple mSimpleModel 1
        none).1 =
        .json 200
          { data := some (.single ro),
            links := some
              { self := buildResourceUrl "http://h/api" mSimpleModel.name
                  (some (toString (1 : Int))) },
            jsonapi := some "1.1" } ∧
      ro.relationships = some [] :=
  c8_zero_assoc_relationships [mSimpleModel] "http://h/api" dbSimple
    mSimpleModel 1 none rfl rfl
    [("id", .vint 1), ("value", .vstr "test")] rfl

/-- C10: GetSingle decides simple mode by JavaScript truthiness of the raw
`simple` query value: any non-empty string — including `"false"` and
`"0"` — suppresses `relationships`, `included` and the top-level `links`,
while an absent or empty-string `simple` yields the full document with a
`relationships` member and a top-level self link. -/
theorem c10_simple_truthiness :
    (∀ (reg : Registry) (baseUrl : String) (db : DB) (m : Model) (rid : Int)
      (s : String), s ≠ "" →
      ∀ r, findRowByPk db m rid = some r →
      ∃ ro : ResourceObject,
        (GetSingle reg baseUrl db m rid (some s)).1 =
          .json 200 { data := some (.single ro), jsonapi := some "1.1" } ∧
        ro.relationships = none) ∧
    (∀ (reg : Registry) (baseUrl : String) (db : DB) (m : Model) (rid : Int)
      (sq : Option String), (sq = none ∨ sq = some "") →
      ∀ r, findRowByPk db m rid = some r →
      ∃ (ro : ResourceObject) (rels : List (String × RelationshipObject)),
        (GetSingle reg baseUrl db m rid sq).1 =
          .json 200
            { data := some (.single ro),
              links := some
                { self := buildResourceUrl baseUrl m.name (some (toString rid)) },
              jsonapi := some "1.1" } ∧
        ro.relationships = some rels) := by
  constructor
  · intro reg baseUrl db m rid s hs r hrow
    have hsq : jsTruthyStr (some s) = true := by
      simp [jsTruthyStr, hs]
    refine ⟨buildSimpleResourceObject (loadRow db reg m r [] [] [])
      (getAssociationDataForModel m).excludedKeys, ?_, rfl⟩
    rw [getSingle_simple_run reg baseUrl db m rid (some s) hsq r hrow]
  · intro reg baseUrl db m rid sq hsq r hrow
    have hf : jsTruthyStr sq = false := by
      rcases hsq with rfl | rfl <;> simp [jsTruthyStr]
    rw [getSingle_nonsimple_run reg baseUrl db m rid sq hf r hrow]
    exact ⟨_, _, rfl, rfl⟩

/-- Witness for C10: `simple=false` on the `S` row yields the simplified
document, while an absent `simple` yields relationships and links. -/
theorem c10_simple_truthiness_witness :
    (∃ ro : ResourceObject,
      (GetSingle [mSimpleModel] "http://h/api" dbSimple mSimpleModel 1
        (some "false")).1 =
        .json 200 { data := some (.single ro), jsonapi := some "1.1" } ∧
      ro.relationships = none) ∧
    (∃ (ro : ResourceObject) (rels : List (String × RelationshipObject)),
      (GetSingle [mSimpleModel] "http://h/api" dbSimple mSimpleModel 1
        none).1 =
        .json 200
          { data := some (.single ro),
            links := some
              { self := buildResourceUrl "http://h/api" mSimpleModel.name
                  (some (toString (1 : Int))) },
            jsonapi := some "1.1" } ∧
      ro.relationships = some rels) :=
  ⟨c10_simple_truthiness.1 [mSimpleModel] "http://h/api" dbSimple
      mSimpleModel 1 "false" (by decide)
      [("id", .vint 1), ("value", .vstr "test")] rfl,
    c10_simple_truthiness.2 [mSimpleModel] "http://h/api" dbSimple
      mSimpleModel 1 none (Or.inl rfl)
      [("id", .vint 1), ("value", .vstr "test")] rfl⟩

/-! ## C3: to-many relationship replacement -/

theorem lookupF_setField_self (l : List (String × Val)) (k : String)
    (v : Val) : lookupF (setField l k v) k = some v := by
  induction l with
  | nil => simp [setField, lookupF, List.find?]
  | cons p ps ih =>
    by_cases hp : p.1 = k
    · simp [setField, hp, lookupF, List.find?]
    · simpa [setField, hp, lookupF, List.find?] using ih

theorem lookupF_setField_ne (l : List (String × Val)) (k k' : String)
    (v : Val) (h : k' ≠ k) :
    lookupF (setField l k v) k' = lookupF l k' := by
  induction l with
  | nil => simp [setField, lookupF, List.find?, Ne.symm h]
  | cons p ps ih =>
    by_cases hp : p.1 = k
    · have hp' : ¬p.1 = k' := by rw [hp]; exact Ne.symm h
      simp [setField, hp, lookupF, List.find?, Ne.symm h, hp']
    · by_cases hk' : p.1 = k'
      · simp [setField, hp, lookupF, List.find?, hk', h]
      · simpa [setField, hp, lookupF, List.find?, hk'] using ih

theorem setField_setField (l : List (String × Val)) (k : String)
    (v w : Val) : setField (setField l k v) k w = setField l k w := by
  induction l with
  | nil => simp [setField]
  | cons p ps ih =>
    by_cases hp : p.1 = k
    · simp [setField, hp]
    · simp [setField, hp, ih]

theorem find?_tables_mapTable (tables : List (String × List Row))
    (n : String) (f : List Row → List Row) (q : String) :
    (DB.tables (mapTable ⟨tables⟩ n f)).find? (fun p => p.1 = q) =
      (tables.find? (fun p => p.1 = q)).map
        (fun p => if p.1 = n then (p.1, f p.2) else p) := by
  induction tables with
  | nil => rfl
  | cons t ts ih =>
    have hmap : (mapTable ⟨t :: ts⟩ n f).tables =
        (if t.1 = n then (t.1, f t.2) else t) ::
          (mapTable ⟨ts⟩ n f).tables := by
      simp [mapTable]
    rw [hmap]
    have ht1 : (if t.1 = n then (t.1, f t.2) else t).1 = t.1 := by
      by_cases hn : t.1 = n <;> simp [hn]
    by_cases hq : t.1 = q
    · rw [List.find?_cons, List.find?_cons]
      subst hq
      simp [ht1]
    · rw [List.find?_cons, List.find?_cons]
      simp only [ht1]
      simp only [hq, decide_False]
      exact ih

theorem findAllRows_mapTable_map (db : DB) (n : String) (g : Row → Row)
    (q : String) :
    findAllRows (mapTable db n (List.map g)) q =
      if q = n then (findAllRows db q).map g else findAllRows db q := by
  obtain ⟨tables⟩ := db
  unfold findAllRows
  rw [find?_tables_mapTable]
  cases hf : tables.find? (fun p => p.1 = q) with
  | none => simp
  | some p =>
    have hp : p.1 = q := by
      have := List.find?_some hf
      simpa using this
    by_cases hqn : q = n
    · rw [if_pos hqn]
      simp [hp, hqn]
    · rw [if_neg hqn]
      have : ¬p.1 = n := by rw [hp]; exact hqn
      simp [this]

/-- C3: for a PATCH on a resolved to-many relationship whose parent row
exists (with a foreign key distinct from the `id` column, as in any sane
schema): a non-list `data` yields 400 and leaves the database untouched;
a list `data` performs full replacement — every target row named in the
list gets the parent id as its foreign key (ids matching no row are
silently skipped, since only existing rows are updated), every other target
row whose foreign key equalled the parent id is cleared to null, all other
rows and tables are untouched — and the handler answers 200 with the
re-read linkage from the updated database. -/
theorem c3_updateRelationship_hasMany (reg : Registry) (baseUrl : String)
    (db : DB) (m : Model) (rid : Int) (rel : String) (a : Association)
    (hassoc : findAssociationByRelationshipName m rel = some (a, .HasMany))
    (hfk : a.foreignKey ≠ "id")
    (pr : Row) (hparent : findRowByPk db m rid = some pr) :
    (∀ d : BodyData, (∀ l, d ≠ .identList l) →
      UpdateRelationship reg baseUrl db m rid rel (some d) =
        (sendJsonApiError 400 "Invalid Request"
          (some "For to-many relationships, data must be an array")
          (some (.pointer "/data")), db)) ∧
    (∀ idents : List BodyIdent,
      findAllRows
          (UpdateRelationship reg baseUrl db m rid rel
            (some (.identList idents))).2 a.target =
        (findAllRows db a.target).map (fun r =>
          match lookupF r "id" with
          | some (.vint i) =>
            if (idents.map BodyIdent.id).contains i then
              setField r a.foreignKey (.vint rid)
            else if fkMatches a rid r then setField r a.foreignKey .vnull
            else r
          | _ =>
            if fkMatches a rid r then setField r a.foreignKey .vnull
            else r) ∧
      (∀ n, n ≠ a.target →
        findAllRows
            (UpdateRelationship reg baseUrl db m rid rel
              (some (.identList idents))).2 n =
          findAllRows db n) ∧
      (UpdateRelationship reg baseUrl db m rid rel
          (some (.identList idents))).1 =
        .json 200
          { data := some (.idents
              (((findAllRows
                  (UpdateRelationship reg baseUrl db m rid rel
                    (some (.identList idents))).2 a.target).filter
                  (fkMatches a rid)).map
                (fun r =>
                  buildResourceIdentifierObject a.target (lookupF r "id")))),
            links := some (relationshipEndpointLinks baseUrl m rid rel),
            jsonapi := some "1.1" }) := by
  have hwrite400 : ∀ d : BodyData, (∀ l, d ≠ .identList l) →
      updateRelationshipWrite db m rid a .HasMany d =
        .inl (sendJsonApiError 400 "Invalid Request"
          (some "For to-many relationships, data must be an array")
          (some (.pointer "/data"))) := by
    intro d hd
    cases d with
    | nullD => rfl
    | ident i => rfl
    | identList l => exact absurd rfl (hd l)
  refine ⟨?_, ?_⟩
  · intro d hd
    simp only [UpdateRelationship, hassoc, hparent, hwrite400 d hd]
  · intro idents
    set relatedIds := idents.map BodyIdent.id with hrel
    set clearFn : Row → Row := fun r =>
      if fkMatches a rid r then setField r a.foreignKey .vnull else r
      with hclear
    set setPred : Row → Bool := fun r =>
      match lookupF r "id" with
      | some (.vint i) => relatedIds.contains i
      | _ => false
      with hsetp
    set setFn : Row → Row := fun r =>
      if setPred r then setField r a.foreignKey (.vint rid) else r
      with hsetf
    have hdb2 : (UpdateRelationship reg baseUrl db m rid rel
        (some (.identList idents))).2 =
        (if relatedIds.length > 0 then
          dbUpdateWhere
            (dbUpdateWhere db a.target a.foreignKey .vnull (fkMatches a rid))
            a.target a.foreignKey (.vint rid) setPred
        else
          dbUpdateWhere db a.target a.foreignKey .vnull (fkMatches a rid)) := by
      simp only [UpdateRelationship, hassoc, hparent, updateRelationshipWrite]
    have hpoint : ∀ r : Row, setFn (clearFn r) =
        (match lookupF r "id" with
          | some (.vint i) =>
            if relatedIds.contains i then setField r a.foreignKey (.vint rid)
            else if fkMatches a rid r then setField r a.foreignKey .vnull
            else r
          | _ =>
            if fkMatches a rid r then setField r a.foreignKey .vnull
            else r) := by
      intro r
      by_cases hm : fkMatches a rid r
      · have hid : lookupF (setField r a.foreignKey .vnull) "id" =
            lookupF r "id" :=
          lookupF_setField_ne r a.foreignKey "id" .vnull (Ne.symm hfk)
        rw [hclear, hsetf, hsetp]
        simp only [if_pos hm, hid]
        cases hL : lookupF r "id" with
        | none => simp [hm]
        | some v =>
          cases v with
          | vint i =>
            by_cases hc : i ∈ relatedIds
            · simp [hc, setField_setField]
            · simp [hc, hm]
          | vnull => simp [hm]
          | vstr s => simp [hm]
          | vbool b => simp [hm]
          | vinst x => simp [hm]
          | vlist x => simp [hm]
      · rw [hclear, hsetf, hsetp]
        simp only [if_neg hm]
        cases hL : lookupF r "id" with
        | none => simp [hm]
        | some v =>
          cases v with
          | vint i =>
            by_cases hc : i ∈ relatedIds
            · simp [hc]
            · simp [hc, hm]
          | vnull => simp [hm]
          | vstr s => simp [hm]
          | vbool b => simp [hm]
          | vinst x => simp [hm]
          | vlist x => simp [hm]
    have hrows : findAllRows (UpdateRelationship reg baseUrl db m rid rel
        (some (.identList idents))).2 a.target =
        (findAllRows db a.target).map (fun r => setFn (clearFn r)) := by
      rw [hdb2]
      by_cases hlen : relatedIds.length > 0
      · rw [if_pos hlen]
        unfold dbUpdateWhere
        rw [findAllRows_mapTable_map, findAllRows_mapTable_map]
        simp [List.map_map, Function.comp]
      · rw [if_neg hlen]
        have hnil : relatedIds = [] := by
          cases hrl : relatedIds with
          | nil => rfl
          | cons x xs => rw [hrl] at hlen; simp at hlen
        unfold dbUpdateWhere
        rw [findAllRows_mapTable_map]
        simp only [if_pos (rfl : a.target = a.target)]
        apply List.map_congr_left
        intro r _
        have h0 : setPred (clearFn r) = false := by
          simp only [hsetp, hnil]
          cases lookupF (clearFn r) "id" with
          | none => rfl
          | some v => cases v <;> rfl
        simp [hsetf, h0]
    refine ⟨?_, ?_, ?_⟩
    · rw [hrows]
      apply List.map_congr_left
      intro r _
      exact hpoint r
    · intro n hn
      rw [hdb2]
      by_cases hlen : relatedIds.length > 0
      · rw [if_pos hlen]
        unfold dbUpdateWhere
        rw [findAllRows_mapTable_map, if_neg hn,
          findAllRows_mapTable_map, if_neg hn]
      · rw [if_neg hlen]
        unfold dbUpdateWhere
        rw [findAllRows_mapTable_map, if_neg hn]
    · rw [hdb2]
      simp only [UpdateRelationship, hassoc, hparent, updateRelationshipWrite,
        readRelationshipData, primaryOfRelData]

/-- The to-many association of the C3 concrete check. -/
def aPostsC3 : Association :=
  { associationType := .HasMany, target := "P", as := "Posts", foreignKey := "userId" }

/-- Parent model of the C3 concrete check. -/
def mC3 : Model :=
  { name := "U", primaryKeyAttribute := "id", associations := [aPostsC3],
    rawAttributes := [], validate := fun _ => [] }

/-- Database of the C3 concrete check: user 10, post 1 related to it, post 2
unrelated; no post 99999 exists. -/
def dbC3 : DB :=
  ⟨[("U", [[("id", .vint 10)]]),
    ("P", [[("id", .vint 1), ("userId", .vint 10)],
      [("id", .vint 2), ("userId", .vnull)]])]⟩

/-- Witness for C3: replacing user 10's posts with `[2, 99999]` clears post
1, sets post 2, silently skips the nonexistent 99999; a non-list body gets
400 with the database untouched. -/
theorem c3_updateRelationship_hasMany_witness :
    (UpdateRelationship [mC3] "b" dbC3 mC3 10 "posts" (some .nullD) =
      (sendJsonApiError 400 "Invalid Request"
        (some "For to-many relationships, data must be an array")
        (some (.pointer "/data")), dbC3)) ∧
    findAllRows (UpdateRelationship [mC3] "b" dbC3 mC3 10 "posts"
        (some (.identList [⟨"Post", 2⟩, ⟨"Post", 99999⟩]))).2 "P" =
      [[("id", .vint 1), ("userId", .vnull)],
        [("id", .vint 2), ("userId", .vint 10)]] := by
  have hthm := c3_updateRelationship_hasMany [mC3] "b" dbC3 mC3 10 "posts"
    aPostsC3 rfl (by decide) [("id", .vint 10)] rfl
  refine ⟨hthm.1 .nullD (fun l h => by cases h), ?_⟩
  have h2 := (hthm.2 [⟨"Post", 2⟩, ⟨"Post", 99999⟩]).1
  exact h2.trans (by rfl)

/-! ## C1, C2: envelope invariants across all operations -/

/-- Claim-side envelope discipline for one handler outcome: a success body
carries a `data` member and no `errors`; an error body carries a non-empty
`errors` list and no `data`; a bodyless response is Delete's 204. -/
def envelopeOk : HandlerResult → Prop
  | .json st b =>
    (st < 400 → b.data.isSome ∧ b.errors = none) ∧
    (400 ≤ st → (∃ es, b.errors = some es ∧ es ≠ []) ∧ b.data = none)
  | .empty st => st = 204
  | .toNext => True

/-- The `included` discipline of one handler outcome: never present as an
empty list; absent altogether when `isCreate` is false. -/
def includedOk (isCreate : Bool) : HandlerResult → Prop
  | .json _ b => b.included ≠ some [] ∧ (isCreate = false → b.included = none)
  | _ => True

theorem envOk_sendError (st : Nat) (t : String) (d : Option String)
    (s : Option ErrSource) (h : 400 ≤ st) :
    envelopeOk (sendJsonApiError st t d s) := by
  unfold sendJsonApiError envelopeOk
  exact ⟨fun hlt => absurd h (by omega),
    fun _ => ⟨⟨_, rfl, by simp⟩, rfl⟩⟩

theorem inclOk_sendError (c : Bool) (st : Nat) (t : String)
    (d : Option String) (s : Option ErrSource) :
    includedOk c (sendJsonApiError st t d s) := by
  unfold sendJsonApiError includedOk
  exact ⟨by simp, fun _ => rfl⟩

theorem dbCreate_error_nonempty (db : DB) (m : Model)
    (attrs : List (String × Val)) (errs : List (String × String))
    (h : dbCreate db m attrs = .error errs) : errs ≠ [] := by
  unfold dbCreate at h
  cases hv : m.validate attrs with
  | nil => rw [hv] at h; cases h
  | cons e es =>
    rw [hv] at h
    cases h
    simp

theorem create_shape (reg : Registry) (baseUrl : String) (db : DB)
    (m : Model) (body : Option CreateBody) :
    envelopeOk ((Create reg baseUrl db m body).1) ∧
    includedOk true ((Create reg baseUrl db m body).1) ∧
    (∀ st, (Create reg baseUrl db m body).1 ≠ .empty st) := by
  unfold Create
  split
  · exact ⟨envOk_sendError _ _ _ _ (by omega), inclOk_sendError _ _ _ _ _,
      fun st h => by cases h⟩
  · split
    · exact ⟨envOk_sendError _ _ _ _ (by omega), inclOk_sendError _ _ _ _ _,
        fun st h => by cases h⟩
    · dsimp only
      split
      · rename_i heq
        refine ⟨⟨fun hlt => absurd hlt (by omega), fun _ => ⟨⟨_, rfl, ?_⟩, rfl⟩⟩,
          ⟨by simp, fun hc => by cases hc⟩, fun st h => by cases h⟩
        have := dbCreate_error_nonempty _ _ _ _ heq
        simp [this]
      · split
        · exact ⟨trivial, trivial, fun st h => by cases h⟩
        · split
          · exact ⟨trivial, trivial, fun st h => by cases h⟩
          · refine ⟨⟨fun _ => ⟨rfl, rfl⟩, fun hge => absurd hge (by omega)⟩,
              ⟨?_, fun hc => by cases hc⟩, fun st h => by cases h⟩
            unfold createSuccessEnvelope
            split
            · rename_i hlen
              intro hsome
              rw [Option.some_inj] at hsome
              rw [hsome] at hlen
              simp at hlen
            · simp

theorem shape_success (st : Nat) (hst : st < 400) (d : PrimaryData)
    (l : Option Links) (j : Option String) :
    envelopeOk (.json st { data := some d, links := l, jsonapi := j }) ∧
    includedOk false (.json st { data := some d, links := l, jsonapi := j }) ∧
    ∀ st', HandlerResult.json st { data := some d, links := l, jsonapi := j } ≠
      .empty st' :=
  ⟨⟨fun _ => ⟨rfl, rfl⟩, fun hge => absurd hge (by omega)⟩,
    ⟨by simp [includedOk], fun _ => rfl⟩, fun st' h => by cases h⟩

theorem shape_error (st : Nat) (hst : 400 ≤ st) (t : String)
    (d : Option String) (s : Option ErrSource) :
    envelopeOk (sendJsonApiError st t d s) ∧
    includedOk false (sendJsonApiError st t d s) ∧
    ∀ st', sendJsonApiError st t d s ≠ .empty st' :=
  ⟨envOk_sendError st t d s hst, inclOk_sendError false st t d s,
    fun st' h => by cases h⟩

theorem getSingle_shape (reg : Registry) (baseUrl : String) (db : DB)
    (m : Model) (rid : Int) (sq : Option String) :
    envelopeOk ((GetSingle reg baseUrl db m rid sq).1) ∧
    includedOk false ((GetSingle reg baseUrl db m rid sq).1) ∧
    ∀ st, (GetSingle reg baseUrl db m rid sq).1 ≠ .empty st := by
  unfold GetSingle
  dsimp only
  split
  · exact shape_error 404 (by omega) _ _ _
  · exact shape_success 200 (by omega) _ _ _

theorem getList_shape (reg : Registry) (baseUrl : String) (db : DB)
    (m : Model) (q : GLQuery) :
    envelopeOk ((GetList reg baseUrl db m q).1) ∧
    includedOk false ((GetList reg baseUrl db m q).1) ∧
    ∀ st, (GetList reg baseUrl db m q).1 ≠ .empty st := by
  unfold GetList
  dsimp only
  split
  · exact ⟨trivial, trivial, fun st h => by cases h⟩
  · split
    · exact shape_success 200 (by omega) _ _ _
    · exact shape_success 200 (by omega) _ _ _

theorem update_shape (reg : Registry) (baseUrl : String) (db : DB)
    (m : Model) (rid : Int) (body : Option CreateBody) :
    envelopeOk ((Update reg baseUrl db m rid body).1) ∧
    includedOk false ((Update reg baseUrl db m rid body).1) ∧
    ∀ st, (Update reg baseUrl db m rid body).1 ≠ .empty st := by
  unfold Update
  split
  · exact shape_error 400 (by omega) _ _ _
  · split
    · exact shape_error 400 (by omega) _ _ _
    · dsimp only
      split
      · exact shape_error 404 (by omega) _ _ _
      · split
        · split
          · exact shape_error 404 (by omega) _ _ _
          · exact shape_success 200 (by omega) _ _ _
        · rename_i errs heq
          refine ⟨⟨fun hlt => absurd hlt (by omega),
            fun _ => ⟨⟨_, rfl, ?_⟩, rfl⟩⟩,
            ⟨by simp [includedOk], fun _ => rfl⟩, fun st h => by cases h⟩
          simp
          exact heq

theorem delete_shape (db : DB) (m : Model) (rid : Int) :
    envelopeOk ((Delete db m rid).1) ∧
    includedOk false ((Delete db m rid).1) ∧
    ∀ st, (Delete db m rid).1 = .empty st → st = 204 := by
  unfold Delete
  split
  · exact ⟨envOk_sendError 404 _ _ _ (by omega),
      inclOk_sendError false 404 _ _ _, fun st h => by cases h⟩
  · exact ⟨rfl, trivial, fun st h => by cases h; rfl⟩

theorem getRelationship_shape (reg : Registry) (baseUrl : String) (db : DB)
    (m : Model) (rid : Int) (rel : String) :
    envelopeOk ((GetRelationship reg baseUrl db m rid rel).1) ∧
    includedOk false ((GetRelationship reg baseUrl db m rid rel).1) ∧
    ∀ st, (GetRelationship reg baseUrl db m rid rel).1 ≠ .empty st := by
  unfold GetRelationship
  split
  · exact shape_error 404 (by omega) _ _ _
  · split
    · exact shape_error 404 (by omega) _ _ _
    · exact shape_success 200 (by omega) _ _ _

theorem updateRelationshipWrite_inl (db : DB) (m : Model) (rid : Int)
    (a : Association) (ty : AssocType) (d : BodyData) (e : HandlerResult)
    (h : updateRelationshipWrite db m rid a ty d = .inl e) :
    envelopeOk e ∧ includedOk false e ∧ ∀ st, e ≠ .empty st := by
  unfold updateRelationshipWrite at h
  cases ty <;> cases d <;> simp at h <;> rw [← h] <;>
    exact shape_error 400 (by omega) _ _ _

theorem updateRelationship_shape (reg : Registry) (baseUrl : String)
    (db : DB) (m : Model) (rid : Int) (rel : String)
    (body : Option BodyData) :
    envelopeOk ((UpdateRelationship reg baseUrl db m rid rel body).1) ∧
    includedOk false ((UpdateRelationship reg baseUrl db m rid rel body).1) ∧
    ∀ st, (UpdateRelationship reg baseUrl db m rid rel body).1 ≠ .empty st := by
  unfold UpdateRelationship
  split
  · exact shape_error 400 (by omega) _ _ _
  · split
    · exact shape_error 404 (by omega) _ _ _
    · split
      · exact shape_error 404 (by omega) _ _ _
      · dsimp only
        split
        · rename_i e heq
          exact updateRelationshipWrite_inl _ _ _ _ _ _ e heq
        · exact shape_success 200 (by omega) _ _ _

theorem getRelated_shape (reg : Registry) (baseUrl : String) (db : DB)
    (m : Model) (rid : Int) (rel : String) :
    envelopeOk ((GetRelated reg baseUrl db m rid rel).1) ∧
    includedOk false ((GetRelated reg baseUrl db m rid rel).1) ∧
    ∀ st, (GetRelated reg baseUrl db m rid rel).1 ≠ .empty st := by
  unfold GetRelated
  split
  · exact ⟨trivial, trivial, fun st h => by cases h⟩
  · split
    · exact shape_error 404 (by omega) _ _ _
    · dsimp only
      split
      · exact shape_success 200 (by omega) _ _ _
      · exact shape_success 200 (by omega) _ _ _
      · exact shape_success 200 (by omega) _ _ _

/-- The claim C1 as stated: every handled response body carries either a
`data` member (success, no `errors`) or a non-empty `errors` member (error,
no `data`) — a bodyless response carries neither, so it falsifies the
claim. -/
def C1Statement : Prop :=
  ∀ (reg : Registry) (baseUrl : String) (db : DB) (m : Model)
    (op : Operation),
    match (handle reg baseUrl db m op).1 with
    | .json st b =>
      (st < 400 → b.data.isSome ∧ b.errors = none) ∧
      (400 ≤ st → (∃ es, b.errors = some es ∧ es ≠ []) ∧ b.data = none)
    | .empty _ => False
    | .toNext => True

/-- C1 (amended): for every request handled by any of the eight operations,
a JSON response with status below 400 carries a `data` member and no
`errors`, one with status 400 or above carries a non-empty `errors` list
and no `data` (so the two members never co-occur); the only bodyless
response — carrying neither member — is Delete's 204 No Content; requests
delegated to the next middleware produce no body from this engine. -/
theorem c1_envelope_amended (reg : Registry) (baseUrl : String) (db : DB)
    (m : Model) (op : Operation) :
    envelopeOk ((handle reg baseUrl db m op).1) ∧
    (∀ st, (handle reg baseUrl db m op).1 = .empty st →
      st = 204 ∧ ∃ rid, op = .delete rid) := by
  cases op with
  | create body =>
    exact ⟨(create_shape reg baseUrl db m body).1,
      fun st h => absurd h ((create_shape reg baseUrl db m body).2.2 st)⟩
  | getSingle rid sq =>
    exact ⟨(getSingle_shape reg baseUrl db m rid sq).1,
      fun st h => absurd h ((getSingle_shape reg baseUrl db m rid sq).2.2 st)⟩
  | getList q =>
    exact ⟨(getList_shape reg baseUrl db m q).1,
      fun st h => absurd h ((getList_shape reg baseUrl db m q).2.2 st)⟩
  | update rid body =>
    exact ⟨(update_shape reg baseUrl db m rid body).1,
      fun st h => absurd h ((update_shape reg baseUrl db m rid body).2.2 st)⟩
  | delete rid =>
    exact ⟨(delete_shape db m rid).1,
      fun st h => ⟨(delete_shape db m rid).2.2 st h, rid, rfl⟩⟩
  | getRelationship rid rel =>
    exact ⟨(getRelationship_shape reg baseUrl db m rid rel).1,
      fun st h =>
        absurd h ((getRelationship_shape reg baseUrl db m rid rel).2.2 st)⟩
  | updateRelationship rid rel body =>
    exact ⟨(updateRelationship_shape reg baseUrl db m rid rel body).1,
      fun st h =>
        absurd h
          ((updateRelationship_shape reg baseUrl db m rid rel body).2.2 st)⟩
  | getRelated rid rel =>
    exact ⟨(getRelated_shape reg baseUrl db m rid rel).1,
      fun st h => absurd h ((getRelated_shape reg baseUrl db m rid rel).2.2 st)⟩

/-- Witness for C1 (amended): a successful GetSingle response satisfies the
envelope discipline, and the concrete Delete of row 1 produces exactly the
204 bodyless response. -/
theorem c1_envelope_amended_witness :
    envelopeOk ((handle [mSimpleModel] "b" dbSimple mSimpleModel
      (.getSingle 1 none)).1) ∧
    (204 = 204 ∧ ∃ rid, Operation.delete (1 : Int) = .delete rid) :=
  ⟨(c1_envelope_amended [mSimpleModel] "b" dbSimple mSimpleModel
      (.getSingle 1 none)).1,
    (c1_envelope_amended [mSimpleModel] "b" dbSimple mSimpleModel
      (.delete 1)).2 204 rfl⟩

/-- Counterexample to C1 as stated: deleting the existing `S` row 1 answers
204 with an empty body, which contains neither a `data` nor an `errors`
member — so not every success response carries `data`. -/
theorem c1_counterexample : ¬ C1Statement := fun h =>
  h [mSimpleModel] "b" dbSimple mSimpleModel (.delete 1)

/-- Whether an operation is the Create operation. -/
def Operation.isCreate : Operation → Bool
  | .create _ => true
  | _ => false

/-- The claim C2's deduplication conjunct as stated: any present `included`
member is a non-empty list in which no two entries share the `(type, id)`
pair. -/
def C2Statement : Prop :=
  ∀ (reg : Registry) (baseUrl : String) (db : DB) (m : Model)
    (op : Operation) (st : Nat) (b : Envelope),
    (handle reg baseUrl db m op).1 = .json st b →
    ∀ l, b.included = some l →
      l ≠ [] ∧ (l.map (fun r => (r.type, r.id))).Nodup

/-- C2 (amended): across all eight operations, an `included` member is never
emitted as an empty list; every operation except Create omits the member
altogether; and Create's success envelope omits it exactly when the
collected list of related resource objects is empty.  (No deduplication is
applied: the collected entries may repeat a `(type, id)` pair, see the
counterexample.) -/
theorem c2_included_amended :
    (∀ (reg : Registry) (baseUrl : String) (db : DB) (m : Model)
      (op : Operation) (st : Nat) (b : Envelope),
      (handle reg baseUrl db m op).1 = .json st b →
      b.included ≠ some [] ∧
        (Operation.isCreate op = false → b.included = none)) ∧
    (∀ (baseUrl : String) (m : Model) (rid : Int) (ro : ResourceObject)
      (inc : List ResourceObject), inc = [] →
      (createSuccessEnvelope baseUrl m rid ro inc).included = none) := by
  constructor
  · intro reg baseUrl db m op st b heq
    cases op with
    | create body =>
      have hio := (create_shape reg baseUrl db m body).2.1
      have heq2 : (Create reg baseUrl db m body).1 = HandlerResult.json st b := heq
      rw [heq2] at hio
      exact ⟨hio.1, fun hc => by cases hc⟩
    | getSingle rid sq =>
      have hio := (getSingle_shape reg baseUrl db m rid sq).2.1
      have heq2 : (GetSingle reg baseUrl db m rid sq).1 = HandlerResult.json st b := heq
      rw [heq2] at hio
      exact ⟨hio.1, fun _ => hio.2 rfl⟩
    | getList q =>
      have hio := (getList_shape reg baseUrl db m q).2.1
      have heq2 : (GetList reg baseUrl db m q).1 = HandlerResult.json st b := heq
      rw [heq2] at hio
      exact ⟨hio.1, fun _ => hio.2 rfl⟩
    | update rid body =>
      have hio := (update_shape reg baseUrl db m rid body).2.1
      have heq2 : (Update reg baseUrl db m rid body).1 = HandlerResult.json st b := heq
      rw [heq2] at hio
      exact ⟨hio.1, fun _ => hio.2 rfl⟩
    | delete rid =>
      have hio := (delete_shape db m rid).2.1
      have heq2 : (Delete db m rid).1 = HandlerResult.json st b := heq
      rw [heq2] at hio
      exact ⟨hio.1, fun _ => hio.2 rfl⟩
    | getRelationship rid rel =>
      have hio := (getRelationship_shape reg baseUrl db m rid rel).2.1
      have heq2 : (GetRelationship reg baseUrl db m rid rel).1 = HandlerResult.json st b := heq
      rw [heq2] at hio
      exact ⟨hio.1, fun _ => hio.2 rfl⟩
    | updateRelationship rid rel body =>
      have hio := (updateRelationship_shape reg baseUrl db m rid rel body).2.1
      have heq2 : (UpdateRelationship reg baseUrl db m rid rel body).1 = HandlerResult.json st b := heq
      rw [heq2] at hio
      exact ⟨hio.1, fun _ => hio.2 rfl⟩
    | getRelated rid rel =>
      have hio := (getRelated_shape reg baseUrl db m rid rel).2.1
      have heq2 : (GetRelated reg baseUrl db m rid rel).1 = HandlerResult.json st b := heq
      rw [heq2] at hio
      exact ⟨hio.1, fun _ => hio.2 rfl⟩
  · intro baseUrl m rid ro inc hnil
    unfold createSuccessEnvelope
    rw [hnil]
    simp

/-- Envelope of a successful concrete GetSingle run. -/
def c2RunEnv : Envelope :=
  match (handle [mSimpleModel] "b" dbSimple mSimpleModel
    (.getSingle 1 none)).1 with
  | .json _ e => e
  | _ => {}

/-- Witness for C2 (amended): the concrete GetSingle envelope has no
`included` member, and a Create success envelope with nothing collected
omits the member. -/
theorem c2_included_amended_witness :
    c2RunEnv.included = none ∧
    (createSuccessEnvelope "b" mSimpleModel 1 roPlainA []).included = none :=
  ⟨(c2_included_amended.1 [mSimpleModel] "b" dbSimple mSimpleModel
      (.getSingle 1 none) 200 c2RunEnv rfl).2 rfl,
    c2_included_amended.2 "b" mSimpleModel 1 roPlainA [] rfl⟩

/-- A to-many association whose target also appears as a has-one target. -/
def aDupPosts : Association :=
  { associationType := .HasMany, target := "P", as := "Posts", foreignKey := "uid" }

/-- A has-one association to the same target model. -/
def aDupSpecial : Association :=
  { associationType := .HasOne, target := "P", as := "Special", foreignKey := "sid" }

/-- A model reaching the same target row through two associations. -/
def mDupU : Model :=
  { name := "U", primaryKeyAttribute := "id",
    associations := [aDupPosts, aDupSpecial],
    rawAttributes := [], validate := fun _ => [] }

/-- The target model of `mDupU`'s associations. -/
def mDupP : Model :=
  { name := "P", primaryKeyAttribute := "id", associations := [],
    rawAttributes := [], validate := fun _ => [] }

/-- A database in which the single `P` row is both in the to-many set and
the has-one target of the `U` row the Create inserts (id 1). -/
def dbDup : DB :=
  ⟨[("U", []),
    ("P", [[("id", .vstr "1"), ("uid", .vint 1), ("sid", .vint 1)]])]⟩

/-- Create body for the duplicate-included run. -/
def bodyDup : CreateBody :=
  { attributes := some [("n", .vstr "x")], relationships := none }

/-- The Create run that collects the same related row twice. -/
def c2cEnv : Envelope :=
  match (handle [mDupU, mDupP] "b" dbDup mDupU (.create (some bodyDup))).1 with
  | .json _ e => e
  | _ => {}

/-- The `included` member of that run. -/
def c2cInc : List ResourceObject :=
  c2cEnv.included.getD []

/-- Counterexample to C2 as stated: the Create response reaches the same
`P` row through both the to-many and the has-one association and pushes it
onto `included` twice — no deduplication is applied (every
`deduplicateIncluded` call site is commented out), so two entries share the
`(type, id)` pair `("P", "1")`. -/
theorem c2_counterexample : ¬ C2Statement := by
  intro h
  have h2 := h [mDupU, mDupP] "b" dbDup mDupU (.create (some bodyDup)) 201
    c2cEnv rfl c2cInc rfl
  exact absurd h2.2 (by decide)

end JsonApi
